import Mathlib

/-!
Verification of the AI core of the AI-Enhanced-Snake-Game repository.

The development shallowly embeds three JavaScript components:
* `PathfindingEngine` (src/js/ai/HintSystem.js): A* search on a bounded
  4-connected grid (`findPath`, `getNeighbors`, `reconstructPath`,
  `findSafeMoves`, `getFallbackSuggestions` and its scoring helpers);
* `DangerPredictor` (src/js/ai/HintSystem.js): per-cell danger scoring
  (`analyze`, `calculateDangerLevel`, `countEscapeRoutes`,
  `detectCorridorTraps`, `getSafestDirection`);
* `DifficultyManager` (src/js/ai/DifficultyManager.js): the adaptive speed
  state machine (`recordFoodCollection`, `recordGameEnd`,
  `analyzePerformanceAndAdjust`, `increaseDifficulty`, `decreaseDifficulty`).

JavaScript numbers are modelled as `Int`/`Nat` where the source only ever
produces integers, and as `ℚ` where genuine division occurs.  JavaScript
`Map`/`Set` objects keyed by the string `x,y` are modelled as functions
`Pos → Option _` and `List Pos` membership (the key encoding is injective).
While loops are modelled by structural recursion on an explicit fuel that
provably dominates the number of iterations the source can perform.
-/

namespace Snake

/-- Integer grid position, the `{x, y}` objects of the source. -/
structure Pos where
  x : Int
  y : Int
deriving DecidableEq

/-- PathfindingEngine.isValidPosition / DangerPredictor.isValidPosition:
`pos.x >= 0 && pos.x < boardWidth && pos.y >= 0 && pos.y < boardHeight`. -/
def isValidPosition (w h : Nat) (p : Pos) : Bool :=
  0 ≤ p.x && p.x < (w : Int) && 0 ≤ p.y && p.y < (h : Int)

/-- PathfindingEngine.heuristic: Manhattan distance `|dx| + |dy|`. -/
def heuristic (a b : Pos) : Nat :=
  (a.x - b.x).natAbs + (a.y - b.y).natAbs

/-- Direction offsets in source order: up, down, left, right. -/
def dirOffsets : List (Int × Int) := [(0, -1), (0, 1), (-1, 0), (1, 0)]

/-- PathfindingEngine.getNeighbors: the in-bounds orthogonal neighbours,
in the order up, down, left, right. -/
def getNeighbors (w h : Nat) (p : Pos) : List Pos :=
  (dirOffsets.map (fun d => Pos.mk (p.x + d.1) (p.y + d.2))).filter
    (fun q => isValidPosition w h q)

/-! DangerPredictor -/

/-- DangerZone record pushed by `DangerPredictor.analyze`. -/
structure DangerZone where
  position : Pos
  level : Nat
  direction : String
  reason : String
deriving DecidableEq

/-- DangerPredictor.countEscapeRoutes: number of in-bounds, unoccupied
orthogonal neighbours of `position`. -/
def countEscapeRoutes (w h : Nat) (position : Pos) (obstacles : List Pos) : Nat :=
  (dirOffsets.filter (fun d =>
    isValidPosition w h (Pos.mk (position.x + d.1) (position.y + d.2)) &&
      !(decide (Pos.mk (position.x + d.1) (position.y + d.2) ∈ obstacles)))).length

/-- DangerPredictor.calculateWallProximity: one point per board-edge axis
within one cell, plus one more when both axes qualify (a corner). -/
def calculateWallProximity (w h : Nat) (position : Pos) : Nat :=
  (if position.x ≤ 1 then 1 else 0) +
  (if (w : Int) - 2 ≤ position.x then 1 else 0) +
  (if position.y ≤ 1 then 1 else 0) +
  (if (h : Int) - 2 ≤ position.y then 1 else 0) +
  (if (position.x ≤ 1 ∨ (w : Int) - 2 ≤ position.x) ∧
      (position.y ≤ 1 ∨ (h : Int) - 2 ≤ position.y) then 1 else 0)

/-- DangerPredictor.calculateBodyProximity: `min(4, segments within
Manhattan distance 2)`. -/
def calculateBodyProximity (position : Pos) (snakeBody : List Pos) : Nat :=
  min 4 ((snakeBody.filter (fun s => heuristic position s ≤ 2)).length)

/-- One iteration bound for `floodFillCount`.  The source loop visits at most
100 cells (the `maxCount` cap) and every iteration pops one queue entry; the
queue only ever receives `1 + 4 * visits ≤ 401` entries, so `1000` iterations
strictly dominate every possible run of the `while` loop. -/
def floodFillFuel : Nat := 1000

/-- Loop of DangerPredictor.floodFillCount.  Pops the queue front; skips
visited, obstacle or out-of-bounds cells; otherwise counts the cell and
enqueues its four neighbours.  Runs while the queue is nonempty and fewer
than 100 cells have been counted. -/
def floodFillLoop (w h : Nat) (obstacles : List Pos) :
    Nat → List Pos → List Pos → Nat → Nat
  | 0, _, _, count => count
  | _ + 1, [], _, count => count
  | fuel + 1, pos :: rest, visited, count =>
    if 100 ≤ count then count
    else if decide (pos ∈ visited) || decide (pos ∈ obstacles) ||
        !isValidPosition w h pos then
      floodFillLoop w h obstacles fuel rest visited count
    else
      floodFillLoop w h obstacles fuel
        (rest ++ [Pos.mk (pos.x + 1) pos.y, Pos.mk (pos.x - 1) pos.y,
                  Pos.mk pos.x (pos.y + 1), Pos.mk pos.x (pos.y - 1)])
        (pos :: visited) (count + 1)

/-- DangerPredictor.floodFillCount: bounded BFS cell count from `start`. -/
def floodFillCount (w h : Nat) (start : Pos) (obstacles : List Pos) : Nat :=
  floodFillLoop w h obstacles floodFillFuel [start] [] 0

/-- DangerPredictor.calculateDangerLevel: sum of the five danger factors,
clamped to 100.  The area-ratio test divides by
`boardWidth * boardHeight - snakeBody.length`; when that denominator is zero
the JavaScript quotient is NaN or Infinity and both `< 0.1` and `< 0.3`
comparisons are false, hence the explicit zero-denominator guard. -/
def calculateDangerLevel (w h : Nat) (position : Pos) (snakeBody : List Pos)
    (foodPosition : Pos) : Nat :=
  let escapeRoutes := countEscapeRoutes w h position snakeBody
  let d1 : Nat :=
    if escapeRoutes = 0 then 100
    else if escapeRoutes = 1 then 60
    else if escapeRoutes = 2 then 30
    else 0
  let d2 : Nat := calculateWallProximity w h position * 10
  let d3 : Nat := calculateBodyProximity position snakeBody * 15
  let reachableArea := floodFillCount w h position snakeBody
  let totalArea : Int := (w : Int) * (h : Int) - snakeBody.length
  let d4 : Nat :=
    if totalArea = 0 then 0
    else if (reachableArea : ℚ) / (totalArea : ℚ) < 1 / 10 then 50
    else if (reachableArea : ℚ) / (totalArea : ℚ) < 3 / 10 then 25
    else 0
  let d5 : Nat := if 10 < heuristic position foodPosition then 5 else 0
  min 100 (d1 + d2 + d3 + d4 + d5)

/-- DangerPredictor.getDangerReason. -/
def getDangerReason (level : Nat) : String :=
  if 80 ≤ level then "CRITICAL: Dead end!"
  else if 60 ≤ level then "HIGH: Limited escape"
  else if 40 ≤ level then "MEDIUM: Risky area"
  else if 20 ≤ level then "LOW: Be careful"
  else "Slight risk"

/-- Named direction offsets of `DangerPredictor.analyze`, in source order. -/
def namedDirs : List (Int × Int × String) :=
  [(0, -1, "up"), (0, 1, "down"), (-1, 0, "left"), (1, 0, "right")]

/-- Loop body of the adjacent-cell pass of DangerPredictor.analyze: skip a
blocked or out-of-bounds neighbour, otherwise push a zone when its computed
danger level is positive. -/
def analyzeStep (w h : Nat) (snakeHead : Pos) (snakeBody : List Pos)
    (foodPosition : Pos) (zones : List DangerZone) (dir : Int × Int × String) :
    List DangerZone :=
  let nextPos : Pos := Pos.mk (snakeHead.x + dir.1) (snakeHead.y + dir.2.1)
  if !isValidPosition w h nextPos || decide (nextPos ∈ snakeBody) then zones
  else
    let dangerLevel := calculateDangerLevel w h nextPos snakeBody foodPosition
    if 0 < dangerLevel then
      zones ++ [DangerZone.mk nextPos dangerLevel dir.2.2
        (getDangerReason dangerLevel)]
    else zones

/-- Adjacent-cell pass of DangerPredictor.analyze: for each unblocked
in-bounds neighbour of the head with a positive danger level, push a zone. -/
def analyzeAdjacent (w h : Nat) (snakeHead : Pos) (snakeBody : List Pos)
    (foodPosition : Pos) : List DangerZone :=
  namedDirs.foldl (analyzeStep w h snakeHead snakeBody foodPosition) []

/-- Probe cells of DangerPredictor.detectCorridorTraps: Manhattan distance
2 to 4 along each axis from the head, in source order. -/
def trapProbes (snakeHead : Pos) : List Pos :=
  ([2, 3, 4] : List Int).flatMap (fun d =>
    [Pos.mk (snakeHead.x + d) snakeHead.y, Pos.mk (snakeHead.x - d) snakeHead.y,
     Pos.mk snakeHead.x (snakeHead.y + d), Pos.mk snakeHead.x (snakeHead.y - d)])

/-- Loop body of DangerPredictor.detectCorridorTraps: a valid probe cell with
at most one escape route becomes a severity-40 zone unless a zone for that
exact cell already exists (earlier entries are never overwritten). -/
def trapStep (w h : Nat) (snakeBody : List Pos) (zs : List DangerZone)
    (pos : Pos) : List DangerZone :=
  if !isValidPosition w h pos then zs
  else if countEscapeRoutes w h pos snakeBody ≤ 1 then
    if zs.any (fun z => z.position.x = pos.x && z.position.y = pos.y) then zs
    else zs ++ [DangerZone.mk pos 40 "trap" "Potential trap ahead"]
  else zs

/-- DangerPredictor.detectCorridorTraps: probe the corridor cells and add
trap zones. -/
def detectCorridorTraps (w h : Nat) (snakeHead : Pos) (snakeBody : List Pos)
    (zones : List DangerZone) : List DangerZone :=
  (trapProbes snakeHead).foldl (trapStep w h snakeBody) zones

/-- DangerPredictor.analyze: the recorded danger zones (empty when the
predictor is disabled). -/
def analyze (enabled : Bool) (w h : Nat) (snakeHead : Pos)
    (snakeBody : List Pos) (foodPosition : Pos) : List DangerZone :=
  if !enabled then []
  else detectCorridorTraps w h snakeHead snakeBody
    (analyzeAdjacent w h snakeHead snakeBody foodPosition)

/-- DangerPredictor.getSafestDirection: scan up, down, left, right; a
direction with no recorded zone counts as danger 0; keep the first strict
minimum.  The initial `lowestDanger = Infinity` is modelled by `none`,
which every first comparison beats. -/
def getSafestDirection (zones : List DangerZone) : Option String × Option Nat :=
  (["up", "down", "left", "right"] : List String).foldl
    (fun (acc : Option String × Option Nat) dir =>
    let danger : Nat :=
      ((zones.find? (fun z => z.direction = dir)).map (fun z => z.level)).getD 0
    match acc.2 with
    | none => (some dir, some danger)
    | some lowest => if danger < lowest then (some dir, some danger) else acc)
    (none, none)

/-! DifficultyManager -/

/-- Fixed configuration of the DifficultyManager constructor. -/
def baseSpeed : ℚ := 150
/-- Fastest possible speed (milliseconds per move). -/
def minSpeed : ℚ := 50
/-- Slowest possible speed (milliseconds per move). -/
def maxSpeed : ℚ := 300
/-- Consecutive successes needed to increase difficulty. -/
def speedIncreaseThreshold : Nat := 3
/-- Recent deaths needed to decrease difficulty. -/
def speedDecreaseThreshold : Nat := 2
/-- Milliseconds to adjust per change. -/
def speedAdjustmentAmount : ℚ := 15
/-- Bound on the stored performance history. -/
def maxHistoryLength : Nat := 10

/-- Entry of `performanceHistory`, built by `recordGameEnd`. -/
structure GameData where
  score : ℚ
  length : ℚ
  survivalTime : ℚ
  foodCollected : ℚ
  averageCollectionTime : ℚ
  finalSpeed : ℚ
  timestamp : ℚ
deriving DecidableEq

/-- Final statistics handed to `recordGameEnd` by the game loop. -/
structure GameStats where
  score : ℚ
  length : ℚ
  survivalTime : ℚ
  foodCollected : ℚ
deriving DecidableEq

/-- Mutable fields of a DifficultyManager instance. -/
structure DMState where
  currentSpeed : ℚ
  consecutiveSuccesses : Nat
  recentDeaths : Nat
  performanceHistory : List GameData
  foodCollectionTimes : List ℚ
  lastFoodTime : ℚ
deriving DecidableEq

/-- DifficultyManager.increaseDifficulty: `max(minSpeed, speed - 15)`
(lower milliseconds per move is harder). -/
def increaseDifficulty (st : DMState) : DMState :=
  { st with currentSpeed := max minSpeed (st.currentSpeed - speedAdjustmentAmount) }

/-- DifficultyManager.decreaseDifficulty: `min(maxSpeed, speed + 15)`. -/
def decreaseDifficulty (st : DMState) : DMState :=
  { st with currentSpeed := min maxSpeed (st.currentSpeed + speedAdjustmentAmount) }

/-- DifficultyManager.calculateAverageCollectionTime: mean of the recorded
inter-food intervals, `0` when none have been recorded. -/
def calculateAverageCollectionTime (st : DMState) : ℚ :=
  if st.foodCollectionTimes.length = 0 then 0
  else st.foodCollectionTimes.sum / (st.foodCollectionTimes.length : ℚ)

/-- DifficultyManager.recordFoodCollection: push the inter-food interval,
bump `consecutiveSuccesses`, and on reaching the threshold of 3 increase
difficulty and reset the counter.  `now` stands for `Date.now()`. -/
def recordFoodCollection (st : DMState) (now : ℚ) : DMState :=
  let timeSinceLastFood := now - st.lastFoodTime
  let st1 := { st with
    foodCollectionTimes := st.foodCollectionTimes ++ [timeSinceLastFood],
    lastFoodTime := now,
    consecutiveSuccesses := st.consecutiveSuccesses + 1 }
  if speedIncreaseThreshold ≤ st1.consecutiveSuccesses then
    { increaseDifficulty st1 with consecutiveSuccesses := 0 }
  else st1

/-- Last three history entries, the `slice(-3)` of
`analyzePerformanceAndAdjust`. -/
def recentGames (history : List GameData) : List GameData :=
  history.drop (history.length - 3)

/-- Mean score of a list of games. -/
def averageScore (games : List GameData) : ℚ :=
  (games.map (fun g => g.score)).sum / (games.length : ℚ)

/-- Mean survival time of a list of games. -/
def averageSurvival (games : List GameData) : ℚ :=
  (games.map (fun g => g.survivalTime)).sum / (games.length : ℚ)

/-- DifficultyManager.analyzePerformanceAndAdjust: with at least two recorded
games, ease difficulty when struggling, otherwise harden it only when
performing well with `recentDeaths === 0` at this point of the call. -/
def analyzePerformanceAndAdjust (st : DMState) (currentGameData : GameData) :
    DMState :=
  if st.performanceHistory.length < 2 then st
  else
    let recent := recentGames st.performanceHistory
    let avgScore := averageScore recent
    let avgSurvival := averageSurvival recent
    let isStruggling : Bool :=
      decide (avgScore < 50) || decide (avgSurvival < 10000) ||
        decide (speedDecreaseThreshold ≤ st.recentDeaths)
    let isPerformingWell : Bool :=
      decide (100 < avgScore) && decide (30000 < avgSurvival) &&
        decide (currentGameData.averageCollectionTime < 3000)
    if isStruggling then
      { decreaseDifficulty st with recentDeaths := 0 }
    else if isPerformingWell && decide (st.recentDeaths = 0) then
      increaseDifficulty st
    else st

/-- Sample object built at the top of DifficultyManager.recordGameEnd. -/
def gameDataOf (st : DMState) (gameStats : GameStats) (now : ℚ) : GameData :=
  { score := gameStats.score,
    length := gameStats.length,
    survivalTime := gameStats.survivalTime,
    foodCollected := gameStats.foodCollected,
    averageCollectionTime := calculateAverageCollectionTime st,
    finalSpeed := st.currentSpeed,
    timestamp := now }

/-- DifficultyManager.recordGameEnd: append the sample (evicting the oldest
entry past 10), reset `consecutiveSuccesses`, increment `recentDeaths`, then
analyze and adjust.  `now` stands for `Date.now()`. -/
def recordGameEnd (st : DMState) (gameStats : GameStats) (now : ℚ) : DMState :=
  let gameData : GameData := gameDataOf st gameStats now
  let hist0 := st.performanceHistory ++ [gameData]
  let hist1 := if maxHistoryLength < hist0.length then hist0.tail else hist0
  let st1 := { st with
    performanceHistory := hist1,
    consecutiveSuccesses := 0,
    recentDeaths := st.recentDeaths + 1 }
  analyzePerformanceAndAdjust st1 gameData

/-- External events driving the DifficultyManager state machine. -/
inductive DMEvent where
  | food (now : ℚ)
  | gameEnd (gameStats : GameStats) (now : ℚ)
deriving DecidableEq

/-- One event step of the DifficultyManager. -/
def dmStep (st : DMState) : DMEvent → DMState
  | DMEvent.food now => recordFoodCollection st now
  | DMEvent.gameEnd gameStats now => recordGameEnd st gameStats now

/-- Run of the DifficultyManager over a finite event sequence. -/
def dmRun (st : DMState) (events : List DMEvent) : DMState :=
  events.foldl dmStep st

/-! PathfindingEngine: the A* search -/

/-- Search state of `PathfindingEngine.findPath`.  The JavaScript `Map`s
keyed by the injective string `x,y` are modelled as functions
`Pos → Option _`; the `Set` closedSet as a list (membership only). -/
structure AStarState where
  openSet : List Pos
  closedSet : List Pos
  gScore : Pos → Option Nat
  fScore : Pos → Option Nat
  cameFrom : Pos → Option Pos

/-- Pointwise update, the `Map.set` of the source. -/
def mapSet {α : Type} (m : Pos → Option α) (k : Pos) (v : α) :
    Pos → Option α :=
  fun q => if q = k then some v else m q

/-- JavaScript `<` on two map lookups: false whenever either operand is
`undefined` (a NaN comparison). -/
def jsLtOpt : Option Nat → Option Nat → Bool
  | some a, some b => decide (a < b)
  | some _, none => false
  | none, _ => false

/-- Linear scan for the open node with the lowest fScore, returning the node
and its index.  Mirrors the source loop that starts from `openSet[0]` and
replaces the candidate only on a strictly smaller score (so the earliest
minimum wins). -/
def findMinFrom (f : Pos → Option Nat) (best : Pos) (bestIdx idx : Nat) :
    List Pos → Pos × Nat
  | [] => (best, bestIdx)
  | q :: rest =>
    if jsLtOpt (f q) (f best) then findMinFrom f q idx (idx + 1) rest
    else findMinFrom f best bestIdx (idx + 1) rest

/-- PathfindingEngine.reconstructPath: follow `cameFrom` links, prepending
each parent.  The accumulator holds the cells already emitted; fuel dominates
the chain length (gScore strictly decreases along `cameFrom`, see
`reconstructPath_spec`). -/
def reconstructPath (fuel : Nat) (cameFrom : Pos → Option Pos) (current : Pos)
    (acc : List Pos) : List Pos :=
  match fuel, cameFrom current with
  | _, none => current :: acc
  | 0, some _ => current :: acc
  | fuel' + 1, some parent => reconstructPath fuel' cameFrom parent (current :: acc)

/-- Relaxation of one neighbour inside the main loop of
`PathfindingEngine.findPath`: skip closed or obstacle cells; push unseen
cells onto the open set; record the better path when the tentative gScore
improves on the existing one. -/
def relaxNeighbor (target current : Pos) (obstacles : List Pos)
    (st : AStarState) (neighbor : Pos) : AStarState :=
  if decide (neighbor ∈ st.closedSet) || decide (neighbor ∈ obstacles) then st
  else
    let tentativeGScore := (st.gScore current).getD 0 + 1
    let st1 :=
      if decide (neighbor ∈ st.openSet) then st
      else { st with openSet := st.openSet ++ [neighbor] }
    if (st1.gScore neighbor).isSome &&
        decide ((st1.gScore neighbor).getD 0 ≤ tentativeGScore) then st1
    else
      { st1 with
        cameFrom := mapSet st1.cameFrom neighbor current,
        gScore := mapSet st1.gScore neighbor tentativeGScore,
        fScore := mapSet st1.fScore neighbor
          (tentativeGScore + heuristic neighbor target) }

/-- Main loop of `PathfindingEngine.findPath`.  Each iteration pops the
earliest lowest-fScore open node, closes it, returns the reconstructed path
when it is the target, and otherwise relaxes its in-bounds neighbours.
Fuel dominates the iteration count: every non-returning iteration closes a
distinct in-bounds cell, so `w * h + 1` iterations always suffice. -/
def aStarLoop (w h : Nat) (target : Pos) (obstacles : List Pos) :
    Nat → AStarState → Option (List Pos)
  | 0, _ => none
  | fuel + 1, st =>
    match st.openSet with
    | [] => none
    | c :: rest =>
      let best := findMinFrom st.fScore c 0 1 rest
      let st1 := { st with
        openSet := st.openSet.eraseIdx best.2,
        closedSet := best.1 :: st.closedSet }
      if best.1 = target then
        some (reconstructPath (w * h) st.cameFrom best.1 [])
      else
        aStarLoop w h target obstacles fuel
          ((getNeighbors w h best.1).foldl
            (relaxNeighbor target best.1 obstacles) st1)

/-- Initial A* state: the start node with gScore 0 and its heuristic fScore. -/
def initState (start target : Pos) : AStarState :=
  { openSet := [start],
    closedSet := [],
    gScore := mapSet (fun _ => none) start 0,
    fScore := mapSet (fun _ => none) start (heuristic start target),
    cameFrom := fun _ => none }

/-- PathfindingEngine.findPath: validate endpoints, reject a blocked target,
then run A*.  Returns the full path (both endpoints included) or `none`. -/
def findPath (w h : Nat) (start target : Pos) (obstacles : List Pos) :
    Option (List Pos) :=
  if !isValidPosition w h start || !isValidPosition w h target then none
  else if decide (target ∈ obstacles) then none
  else aStarLoop w h target obstacles (w * h + 1) (initState start target)

/-! PathfindingEngine: fallback move ranking -/

/-- PathfindingEngine.getMovePosition.  The source indexes a four-entry
record, so only the four direction names ever reach it. -/
def getMovePosition (position : Pos) (direction : String) : Pos :=
  if direction = "up" then Pos.mk position.x (position.y - 1)
  else if direction = "down" then Pos.mk position.x (position.y + 1)
  else if direction = "left" then Pos.mk (position.x - 1) position.y
  else Pos.mk (position.x + 1) position.y

/-- PathfindingEngine.findSafeMoves: the direction names whose resulting
cell is in-bounds and unoccupied, in the order up, down, left, right. -/
def findSafeMoves (w h : Nat) (position : Pos) (obstacles : List Pos) :
    List String :=
  (["up", "down", "left", "right"] : List String).filter (fun direction =>
    isValidPosition w h (getMovePosition position direction) &&
      !(decide (getMovePosition position direction ∈ obstacles)))

/-- PathfindingEngine.calculateSpaceScore: open in-bounds neighbours (0 to 4). -/
def calculateSpaceScore (w h : Nat) (position : Pos) (obstacles : List Pos) :
    Nat :=
  ((getNeighbors w h position).filter
    (fun n => !(decide (n ∈ obstacles)))).length

/-- PathfindingEngine.calculateCenterScore: Euclidean distance from the board
centre mapped onto 0 to 4, closer to the centre scoring higher.  Real-valued
because of `Math.sqrt`. -/
noncomputable def calculateCenterScore (w h : Nat) (position : Pos) : ℝ :=
  let centerX : ℝ := (w : ℝ) / 2
  let centerY : ℝ := (h : ℝ) / 2
  let maxDistance : ℝ := max centerX centerY
  let distance : ℝ :=
    Real.sqrt (((position.x : ℝ) - centerX) ^ 2 + ((position.y : ℝ) - centerY) ^ 2)
  max 0 (4 - distance / maxDistance * 4)

/-- PathfindingEngine.calculateMobilityScore: half the number of second-step
options (excluding stepping straight back), capped at 4. -/
def calculateMobilityScore (w h : Nat) (position : Pos) (obstacles : List Pos) :
    ℚ :=
  let totalFutureMoves : Nat :=
    ((getNeighbors w h position).filter (fun n => !(decide (n ∈ obstacles)))).foldl
      (fun acc n => acc +
        ((getNeighbors w h n).filter (fun fn =>
          !(decide (fn ∈ obstacles)) && !(decide (fn = position)))).length) 0
  min 4 ((totalFutureMoves : ℚ) / 2)

/-- PathfindingEngine.calculateMoveScore: weighted sum of goal proximity,
adjacent space, centrality and two-step mobility. -/
noncomputable def calculateMoveScore (w h : Nat) (movePos target : Pos)
    (obstacles : List Pos) : ℝ :=
  let distanceToTarget := heuristic movePos target
  let s1 : ℝ := max 0 (50 - (distanceToTarget : ℝ))
  let s2 : ℝ := (calculateSpaceScore w h movePos obstacles : ℝ) * 10
  let s3 : ℝ := calculateCenterScore w h movePos * 5
  let s4 : ℝ := (calculateMobilityScore w h movePos obstacles : ℝ) * 15
  s1 + s2 + s3 + s4

/-- PathfindingEngine.getMoveReasoning: threshold-band diagnostic tags. -/
noncomputable def getMoveReasoning (w h : Nat) (movePos target : Pos)
    (obstacles : List Pos) (score : ℝ) : String :=
  let distance := heuristic movePos target
  let spaceScore := calculateSpaceScore w h movePos obstacles
  let r1 : List String :=
    if distance ≤ 3 then ["close to food"]
    else if 10 < distance then ["far from food"]
    else []
  let r2 : List String :=
    if 3 ≤ spaceScore then ["good open space"]
    else if spaceScore ≤ 1 then ["limited space"]
    else []
  let r3 : List String :=
    if 80 < score then ["excellent choice"]
    else if 60 < score then ["good option"]
    else if 40 < score then ["acceptable"]
    else ["risky move"]
  String.intercalate ", " (r1 ++ r2 ++ r3)

/-- MoveCandidate produced by `getFallbackSuggestions`. -/
structure MoveCandidate where
  direction : String
  position : Pos
  score : ℝ
  reasoning : String

/-- Comparator of the fallback sort: `a` may precede `b` when its score is
at least as large (the source comparator `b.score - a.score`). -/
def candBefore (a b : MoveCandidate) : Prop := b.score ≤ a.score

noncomputable instance : DecidableRel candBefore :=
  fun a b => Real.decidableLE b.score a.score

instance : IsTotal MoveCandidate candBefore :=
  ⟨fun a b => le_total b.score a.score⟩

instance : IsTrans MoveCandidate candBefore :=
  ⟨fun _ _ _ h1 h2 => le_trans h2 h1⟩

/-- PathfindingEngine.getOverallReasoning. -/
noncomputable def getOverallReasoning (scoredMoves : List MoveCandidate) :
    String :=
  match scoredMoves with
  | [] => "No safe moves available"
  | m :: rest =>
    if rest.length = 0 then "Only one safe move: " ++ m.direction
    else
      let bestScore : ℝ := m.score
      let worstScore : ℝ := ((scoredMoves.getLast?).map (fun c => c.score)).getD 0
      if 80 < bestScore then "Multiple good options available"
      else if 60 < bestScore then "Some decent moves available"
      else if worstScore < 30 then "All moves are risky - choose carefully"
      else "Limited but viable options"

/-- PathfindingEngine.getPriorityLevel. -/
noncomputable def getPriorityLevel (moveCount : Nat) (bestScore : ℝ) : String :=
  if moveCount = 0 then "critical"
  else if moveCount = 1 ∨ bestScore < 40 then "high"
  else if bestScore < 60 then "medium"
  else "low"

/-- Result record of `getFallbackSuggestions`. -/
structure FallbackSuggestions where
  moves : List MoveCandidate
  reasoning : String
  priority : String

/-- PathfindingEngine.getFallbackSuggestions: score every safe move and sort
descending by score (JavaScript `Array.prototype.sort` is stable, as is
insertion sort).  An empty safe-move list yields the critical record. -/
noncomputable def getFallbackSuggestions (w h : Nat) (position target : Pos)
    (obstacles : List Pos) : FallbackSuggestions :=
  let safeMoves := findSafeMoves w h position obstacles
  if safeMoves.length = 0 then
    { moves := [],
      reasoning := "No safe moves available - game over imminent",
      priority := "critical" }
  else
    let scoredMoves := safeMoves.map (fun direction =>
      let movePos := getMovePosition position direction
      let score := calculateMoveScore w h movePos target obstacles
      MoveCandidate.mk direction movePos score
        (getMoveReasoning w h movePos target obstacles score))
    let sorted := scoredMoves.insertionSort candBefore
    { moves := sorted,
      reasoning := getOverallReasoning sorted,
      priority := getPriorityLevel sorted.length
        (((sorted.head?).map (fun m => m.score)).getD 0) }

/-! Specification-level notions used to state the claims -/

/-- One unit move on exactly one axis. -/
def adjStep (a b : Pos) : Prop := heuristic a b = 1

instance : DecidableRel adjStep :=
  fun a b => inferInstanceAs (Decidable (heuristic a b = 1))

/-- A legal connecting path: starts at `start`, ends at `goal`, moves one
unit on one axis per step, stays in bounds, and touches no obstacle after
index 0 (the spec data-model invariant for Path). -/
def ValidPath (w h : Nat) (obstacles : List Pos) (start goal : Pos)
    (p : List Pos) : Prop :=
  p.head? = some start ∧ p.getLast? = some goal ∧ List.Chain' adjStep p ∧
    (∀ q ∈ p, isValidPosition w h q = true) ∧ (∀ q ∈ p.tail, q ∉ obstacles)

instance instChainAdj : ∀ l : List Pos, Decidable (List.Chain' adjStep l)
  | [] => isTrue List.chain'_nil
  | [_] => isTrue (List.chain'_singleton _)
  | a :: b :: t =>
    match instChainAdj (b :: t), Nat.decEq (heuristic a b) 1 with
    | isTrue ht, isTrue ha => isTrue (List.chain'_cons.mpr ⟨ha, ht⟩)
    | isFalse ht, _ => isFalse (fun hc => ht (List.chain'_cons.mp hc).2)
    | _, isFalse ha => isFalse (fun hc => ha (List.chain'_cons.mp hc).1)

instance (w h : Nat) (obstacles : List Pos) (start goal : Pos) (p : List Pos) :
    Decidable (ValidPath w h obstacles start goal p) :=
  inferInstanceAs (Decidable (_ ∧ _ ∧ _ ∧ _ ∧ _))

/-- Start and goal are connected by a sequence of unobstructed unit
orthogonal moves. -/
def Connects (w h : Nat) (obstacles : List Pos) (start goal : Pos) : Prop :=
  ∃ p, ValidPath w h obstacles start goal p

/-- Cells reachable from the members of `S` in at most one unobstructed
unit move. -/
def reachStep (w h : Nat) (obstacles : List Pos) (S : Finset Pos) : Finset Pos :=
  S ∪ S.biUnion (fun p =>
    ((getNeighbors w h p).filter (fun q => !(decide (q ∈ obstacles)))).toFinset)

/-- Cells reachable from `src` within `n` unobstructed unit moves. -/
def reachN (w h : Nat) (obstacles : List Pos) (src : Pos) (n : Nat) : Finset Pos :=
  (reachStep w h obstacles)^[n] {src}

/-- The grid distance from `src` to `z` avoiding obstacles is exactly `d`. -/
def distIs (w h : Nat) (obstacles : List Pos) (src z : Pos) (d : Nat) : Prop :=
  z ∈ reachN w h obstacles src d ∧ ∀ m, z ∈ reachN w h obstacles src m → d ≤ m

/-- All in-bounds cells of a `w` by `h` board. -/
def boardCells (w h : Nat) : Finset Pos :=
  (Finset.range w ×ˢ Finset.range h).image (fun ab => Pos.mk ab.1 ab.2)

/-- Monotone walk in x towards `tx`, used to build obstacle-free witness
paths of minimal length. -/
def marchX : Nat → Pos → Int → List Pos
  | 0, p, _ => [p]
  | n + 1, p, tx =>
    p :: marchX n (Pos.mk (p.x + if p.x < tx then 1 else -1) p.y) tx

/-- Monotone walk in y towards `ty`. -/
def marchY : Nat → Pos → Int → List Pos
  | 0, p, _ => [p]
  | n + 1, p, ty =>
    p :: marchY n (Pos.mk p.x (p.y + if p.y < ty then 1 else -1)) ty

/-- L-shaped path from `start` to `goal`: first align x, then align y.
On an obstacle-free board it is a valid path with
`heuristic start goal + 1` cells. -/
def staircase (start goal : Pos) : List Pos :=
  marchX (goal.x - start.x).natAbs start goal.x ++
    (marchY (goal.y - start.y).natAbs (Pos.mk goal.x start.y) goal.y).tail

/-- Invariant of the A* search state, maintained by every loop iteration of
`findPath`.  `gScore` values are sound upper bounds on grid distance, closed
nodes carry exact distances and are fully relaxed, and every cell that is
reachable but not yet closed has an open ancestor on a shortest route
(the classical A* frontier property, in anchor form). -/
structure AStarInv (w h : Nat) (target : Pos) (obstacles : List Pos)
    (start : Pos) (st : AStarState) : Prop where
  start_valid : isValidPosition w h start = true
  open_nodup : st.openSet.Nodup
  open_sub : ∀ p ∈ st.openSet, isValidPosition w h p = true
  closed_nodup : st.closedSet.Nodup
  closed_sub : ∀ p ∈ st.closedSet, isValidPosition w h p = true
  disj : ∀ p ∈ st.openSet, p ∉ st.closedSet
  g_def : ∀ p : Pos, (st.gScore p).isSome = true ↔ (p ∈ st.openSet ∨ p ∈ st.closedSet)
  f_eq : ∀ p : Pos, st.fScore p = (st.gScore p).map (fun g => g + heuristic p target)
  g_start : st.gScore start = some 0
  came_start : st.cameFrom start = none
  g_sound : ∀ p m, st.gScore p = some m → p ∈ reachN w h obstacles start m
  not_obs : ∀ p, (st.gScore p).isSome = true → p = start ∨ p ∉ obstacles
  came_def : ∀ p, (st.gScore p).isSome = true → p ≠ start → (st.cameFrom p).isSome = true
  came_g : ∀ p q, st.cameFrom p = some q →
    ∃ mp mq, st.gScore p = some mp ∧ st.gScore q = some mq ∧ mq + 1 ≤ mp
  came_adj : ∀ p q, st.cameFrom p = some q →
    heuristic q p = 1 ∧ p ∉ obstacles ∧ isValidPosition w h p = true
  closed_exact : ∀ p ∈ st.closedSet,
    ∃ dp, distIs w h obstacles start p dp ∧ st.gScore p = some dp
  closed_relaxed : ∀ p ∈ st.closedSet, ∀ q ∈ getNeighbors w h p, q ∉ obstacles →
    ∃ mq mp, st.gScore q = some mq ∧ st.gScore p = some mp ∧ mq ≤ mp + 1
  target_not_closed : target ∉ st.closedSet
  opt : ∀ z dz, distIs w h obstacles start z dz → z ∉ st.closedSet →
    ∃ y ∈ st.openSet, ∃ gy dyz, st.gScore y = some gy ∧
      distIs w h obstacles y z dyz ∧ gy + dyz ≤ dz

/-! Theorems.  DangerPredictor claims -/

/-- Folding a zone-pushing step only ever adds zones satisfying `P`. -/
theorem mem_foldl_of_preserve {β : Type} (P : DangerZone → Prop)
    (f : List DangerZone → β → List DangerZone)
    (hf : ∀ acc b z, z ∈ f acc b → z ∈ acc ∨ P z) :
    ∀ (l : List β) (acc : List DangerZone) (z : DangerZone),
      z ∈ l.foldl f acc → z ∈ acc ∨ P z := by
  intro l
  induction l with
  | nil => intro acc z hz; exact Or.inl hz
  | cons b t ih =>
    intro acc z hz
    rcases ih (f acc b) z hz with hmem | hP
    · exact hf acc b z hmem
    · exact Or.inr hP

/-- The clamp in `calculateDangerLevel` bounds every computed severity. -/
theorem calculateDangerLevel_le_100 (w h : Nat) (position : Pos)
    (snakeBody : List Pos) (foodPosition : Pos) :
    calculateDangerLevel w h position snakeBody foodPosition ≤ 100 := by
  unfold calculateDangerLevel
  exact min_le_left _ _

/-- Every zone of the adjacent-cell pass has severity at most 100. -/
theorem analyzeAdjacent_level_le (w h : Nat) (snakeHead : Pos)
    (snakeBody : List Pos) (foodPosition : Pos) (z : DangerZone)
    (hz : z ∈ analyzeAdjacent w h snakeHead snakeBody foodPosition) :
    z.level ≤ 100 := by
  have hstep : ∀ (acc : List DangerZone) (b : Int × Int × String) (z : DangerZone),
      z ∈ analyzeStep w h snakeHead snakeBody foodPosition acc b →
        z ∈ acc ∨ z.level ≤ 100 := by
    intro acc b z hz
    simp only [analyzeStep] at hz
    split at hz
    · exact Or.inl hz
    · split at hz
      · rcases List.mem_append.mp hz with hmem | hone
        · exact Or.inl hmem
        · simp at hone
          subst hone
          exact Or.inr (calculateDangerLevel_le_100 _ _ _ _ _)
      · exact Or.inl hz
  rcases mem_foldl_of_preserve (fun z => z.level ≤ 100) _ hstep namedDirs [] z hz with
    hmem | hP
  · simp at hmem
  · exact hP

/-- The corridor-trap pass only adds severity-40 zones. -/
theorem detectCorridorTraps_level_le (w h : Nat) (snakeHead : Pos)
    (snakeBody : List Pos) (zones : List DangerZone) (z : DangerZone)
    (hz : z ∈ detectCorridorTraps w h snakeHead snakeBody zones) :
    z ∈ zones ∨ z.level ≤ 100 := by
  refine mem_foldl_of_preserve (fun z => z.level ≤ 100) _ ?_ _ zones z hz
  intro acc b z hz
  unfold trapStep at hz
  split at hz
  · exact Or.inl hz
  · split at hz
    · split at hz
      · exact Or.inl hz
      · rcases List.mem_append.mp hz with hmem | hone
        · exact Or.inl hmem
        · simp at hone
          subst hone
          exact Or.inr (by norm_num)
    · exact Or.inl hz

/-- Claim C5: for every input to `analyze` (any head position, body list and
food position, any board size, either enabled flag), every recorded
DangerZone — the per-neighbour zones and the corridor-trap zones alike — has
a severity level within the interval 0 to 100. -/
theorem analyze_severity_in_range (enabled : Bool) (w h : Nat)
    (snakeHead : Pos) (snakeBody : List Pos) (foodPosition : Pos)
    (z : DangerZone) (hz : z ∈ analyze enabled w h snakeHead snakeBody foodPosition) :
    0 ≤ z.level ∧ z.level ≤ 100 := by
  refine ⟨Nat.zero_le _, ?_⟩
  unfold analyze at hz
  split at hz
  · simp at hz
  · rcases detectCorridorTraps_level_le _ _ _ _ _ _ hz with hmem | hP
    · exact analyzeAdjacent_level_le _ _ _ _ _ _ hmem
    · exact hP

/-- Witness for C5 at a concrete input: the corridor-trap zone recorded two
cells ahead of a head boxed against its own segment on a 5 by 1 board. -/
theorem analyze_severity_in_range_witness :
    DangerZone.mk (Pos.mk 2 0) 40 "trap" "Potential trap ahead" ∈
        analyze true 5 1 (Pos.mk 0 0) [Pos.mk 1 0] (Pos.mk 4 0) ∧
      0 ≤ (40 : Nat) ∧ (40 : Nat) ≤ 100 :=
  ⟨by decide,
   analyze_severity_in_range true 5 1 (Pos.mk 0 0) [Pos.mk 1 0] (Pos.mk 4 0)
     (DangerZone.mk (Pos.mk 2 0) 40 "trap" "Potential trap ahead") (by decide)⟩

/-- Claim C6: a cell with zero escape routes gets danger severity exactly
100, whatever the other additive factors contribute. -/
theorem zero_escape_routes_severity_100 (w h : Nat) (position : Pos)
    (snakeBody : List Pos) (foodPosition : Pos)
    (hzero : countEscapeRoutes w h position snakeBody = 0) :
    calculateDangerLevel w h position snakeBody foodPosition = 100 := by
  unfold calculateDangerLevel
  rw [hzero]
  simp only [reduceIte]
  omega

/-- Witness for C6: the single cell of a 1 by 1 board has no escape route
and severity exactly 100. -/
theorem zero_escape_routes_severity_100_witness :
    countEscapeRoutes 1 1 (Pos.mk 0 0) [] = 0 ∧
      calculateDangerLevel 1 1 (Pos.mk 0 0) [] (Pos.mk 0 0) = 100 :=
  ⟨by decide, zero_escape_routes_severity_100 1 1 (Pos.mk 0 0) [] (Pos.mk 0 0) (by decide)⟩

/-- Claim C10 (implicit): with the head on the top edge of an empty 3 by 3
board, `analyze` records no zone for the out-of-bounds direction up, so
`getSafestDirection` returns up with danger level 0 even though legal
alternatives (for instance down) exist. -/
theorem getSafestDirection_picks_illegal_direction :
    getSafestDirection (analyze true 3 3 (Pos.mk 1 0) [] (Pos.mk 2 2)) =
        (some "up", some 0) ∧
      isValidPosition 3 3 (Pos.mk 1 (-1)) = false ∧
      isValidPosition 3 3 (Pos.mk 1 1) = true ∧
      Pos.mk 1 1 ∉ ([] : List Pos) := by
  have hd : calculateDangerLevel 3 3 (Pos.mk 1 1) [] (Pos.mk 2 2) = 50 := by
    have h1 : countEscapeRoutes 3 3 (Pos.mk 1 1) [] = 4 := by decide
    have h2 : floodFillCount 3 3 (Pos.mk 1 1) [] = 9 := by decide
    unfold calculateDangerLevel
    rw [h1, h2]
    norm_num [calculateWallProximity, calculateBodyProximity, heuristic]
  have hl : calculateDangerLevel 3 3 (Pos.mk 0 0) [] (Pos.mk 2 2) = 60 := by
    have h1 : countEscapeRoutes 3 3 (Pos.mk 0 0) [] = 2 := by decide
    have h2 : floodFillCount 3 3 (Pos.mk 0 0) [] = 9 := by decide
    unfold calculateDangerLevel
    rw [h1, h2]
    norm_num [calculateWallProximity, calculateBodyProximity, heuristic]
  have hr : calculateDangerLevel 3 3 (Pos.mk 2 0) [] (Pos.mk 2 2) = 60 := by
    have h1 : countEscapeRoutes 3 3 (Pos.mk 2 0) [] = 2 := by decide
    have h2 : floodFillCount 3 3 (Pos.mk 2 0) [] = 9 := by decide
    unfold calculateDangerLevel
    rw [h1, h2]
    norm_num [calculateWallProximity, calculateBodyProximity, heuristic]
  have s1 : analyzeStep 3 3 (Pos.mk 1 0) [] (Pos.mk 2 2) [] (0, -1, "up") = [] := by
    decide
  have s2 : analyzeStep 3 3 (Pos.mk 1 0) [] (Pos.mk 2 2) [] (0, 1, "down") =
      [DangerZone.mk (Pos.mk 1 1) 50 "down" "MEDIUM: Risky area"] := by
    unfold analyzeStep
    norm_num [isValidPosition, hd, getDangerReason]
  have s3 : analyzeStep 3 3 (Pos.mk 1 0) [] (Pos.mk 2 2)
      [DangerZone.mk (Pos.mk 1 1) 50 "down" "MEDIUM: Risky area"] (-1, 0, "left") =
      [DangerZone.mk (Pos.mk 1 1) 50 "down" "MEDIUM: Risky area",
       DangerZone.mk (Pos.mk 0 0) 60 "left" "HIGH: Limited escape"] := by
    unfold analyzeStep
    norm_num [isValidPosition, hl, getDangerReason]
  have s4 : analyzeStep 3 3 (Pos.mk 1 0) [] (Pos.mk 2 2)
      [DangerZone.mk (Pos.mk 1 1) 50 "down" "MEDIUM: Risky area",
       DangerZone.mk (Pos.mk 0 0) 60 "left" "HIGH: Limited escape"] (1, 0, "right") =
      [DangerZone.mk (Pos.mk 1 1) 50 "down" "MEDIUM: Risky area",
       DangerZone.mk (Pos.mk 0 0) 60 "left" "HIGH: Limited escape",
       DangerZone.mk (Pos.mk 2 0) 60 "right" "HIGH: Limited escape"] := by
    unfold analyzeStep
    norm_num [isValidPosition, hr, getDangerReason]
  have hadj : analyzeAdjacent 3 3 (Pos.mk 1 0) [] (Pos.mk 2 2) =
      [DangerZone.mk (Pos.mk 1 1) 50 "down" "MEDIUM: Risky area",
       DangerZone.mk (Pos.mk 0 0) 60 "left" "HIGH: Limited escape",
       DangerZone.mk (Pos.mk 2 0) 60 "right" "HIGH: Limited escape"] := by
    unfold analyzeAdjacent namedDirs
    rw [List.foldl_cons, s1, List.foldl_cons, s2, List.foldl_cons, s3,
      List.foldl_cons, s4, List.foldl_nil]
  have hzones : analyze true 3 3 (Pos.mk 1 0) [] (Pos.mk 2 2) =
      [DangerZone.mk (Pos.mk 1 1) 50 "down" "MEDIUM: Risky area",
       DangerZone.mk (Pos.mk 0 0) 60 "left" "HIGH: Limited escape",
       DangerZone.mk (Pos.mk 2 0) 60 "right" "HIGH: Limited escape"] := by
    unfold analyze
    rw [if_neg (by decide)]
    rw [hadj]
    decide
  refine ⟨?_, by decide, by decide, by decide⟩
  rw [hzones]
  decide

/-! DifficultyManager claims -/

/-- Clamped speed decrease (harder) stays within the configured bounds. -/
theorem speedDown_bounds (s : ℚ) (hhi : s ≤ maxSpeed) :
    minSpeed ≤ max minSpeed (s - speedAdjustmentAmount) ∧
      max minSpeed (s - speedAdjustmentAmount) ≤ maxSpeed := by
  refine ⟨le_max_left _ _, max_le ?_ ?_⟩
  · norm_num [minSpeed, maxSpeed]
  · have : (0 : ℚ) ≤ speedAdjustmentAmount := by norm_num [speedAdjustmentAmount]
    linarith

/-- Clamped speed increase (easier) stays within the configured bounds. -/
theorem speedUp_bounds (s : ℚ) (hlo : minSpeed ≤ s) :
    minSpeed ≤ min maxSpeed (s + speedAdjustmentAmount) ∧
      min maxSpeed (s + speedAdjustmentAmount) ≤ maxSpeed := by
  refine ⟨le_min ?_ ?_, min_le_left _ _⟩
  · norm_num [minSpeed, maxSpeed]
  · have : (0 : ℚ) ≤ speedAdjustmentAmount := by norm_num [speedAdjustmentAmount]
    linarith

/-- The analyze-and-adjust step keeps the speed within bounds. -/
theorem analyzePerformanceAndAdjust_bounds (st : DMState) (g : GameData)
    (hlo : minSpeed ≤ st.currentSpeed) (hhi : st.currentSpeed ≤ maxSpeed) :
    minSpeed ≤ (analyzePerformanceAndAdjust st g).currentSpeed ∧
      (analyzePerformanceAndAdjust st g).currentSpeed ≤ maxSpeed := by
  unfold analyzePerformanceAndAdjust
  split
  · exact ⟨hlo, hhi⟩
  · dsimp only
    split
    · exact speedUp_bounds st.currentSpeed hlo
    · split
      · exact speedDown_bounds st.currentSpeed hhi
      · exact ⟨hlo, hhi⟩

/-- A food-collection event keeps the speed within bounds. -/
theorem recordFoodCollection_bounds (st : DMState) (now : ℚ)
    (hlo : minSpeed ≤ st.currentSpeed) (hhi : st.currentSpeed ≤ maxSpeed) :
    minSpeed ≤ (recordFoodCollection st now).currentSpeed ∧
      (recordFoodCollection st now).currentSpeed ≤ maxSpeed := by
  unfold recordFoodCollection
  dsimp only
  split
  · exact speedDown_bounds st.currentSpeed hhi
  · exact ⟨hlo, hhi⟩

/-- A game-end event keeps the speed within bounds. -/
theorem recordGameEnd_bounds (st : DMState) (stats : GameStats) (now : ℚ)
    (hlo : minSpeed ≤ st.currentSpeed) (hhi : st.currentSpeed ≤ maxSpeed) :
    minSpeed ≤ (recordGameEnd st stats now).currentSpeed ∧
      (recordGameEnd st stats now).currentSpeed ≤ maxSpeed := by
  unfold recordGameEnd
  exact analyzePerformanceAndAdjust_bounds _ _ hlo hhi

/-- Any single event keeps the speed within bounds. -/
theorem dmStep_bounds (st : DMState) (e : DMEvent)
    (hlo : minSpeed ≤ st.currentSpeed) (hhi : st.currentSpeed ≤ maxSpeed) :
    minSpeed ≤ (dmStep st e).currentSpeed ∧ (dmStep st e).currentSpeed ≤ maxSpeed := by
  cases e with
  | food now => exact recordFoodCollection_bounds st now hlo hhi
  | gameEnd stats now => exact recordGameEnd_bounds st stats now hlo hhi

/-- Claim C7: from any state whose speed lies within the configured bounds
of 50 and 300 milliseconds, every finite sequence of food-collection and
game-end events leaves the current speed within those bounds. -/
theorem speed_stays_in_bounds (st : DMState) (events : List DMEvent)
    (hlo : minSpeed ≤ st.currentSpeed) (hhi : st.currentSpeed ≤ maxSpeed) :
    minSpeed ≤ (dmRun st events).currentSpeed ∧
      (dmRun st events).currentSpeed ≤ maxSpeed := by
  induction events generalizing st with
  | nil => exact ⟨hlo, hhi⟩
  | cons e t ih =>
    have hb := dmStep_bounds st e hlo hhi
    exact ih (dmStep st e) hb.1 hb.2

/-- Witness for C7 at a concrete state and event sequence. -/
theorem speed_stays_in_bounds_witness :
    minSpeed ≤ (dmRun (DMState.mk 150 0 0 [] [] 0)
        [DMEvent.food 0, DMEvent.gameEnd (GameStats.mk 0 1 0 0) 1]).currentSpeed ∧
      (dmRun (DMState.mk 150 0 0 [] [] 0)
        [DMEvent.food 0, DMEvent.gameEnd (GameStats.mk 0 1 0 0) 1]).currentSpeed
        ≤ maxSpeed :=
  speed_stays_in_bounds (DMState.mk 150 0 0 [] [] 0)
    [DMEvent.food 0, DMEvent.gameEnd (GameStats.mk 0 1 0 0) 1]
    (by norm_num [minSpeed]) (by norm_num [maxSpeed])

/-- Claim C8 (amended): from a state with `consecutiveSuccesses = 0`, three
consecutive food collections with no intervening game end set the speed to
`max(minSpeed, speed - 15)` — a decrease of exactly one 15 ms step whenever
the speed is at least `minSpeed + 15`, and a clamp to `minSpeed` otherwise —
and leave `consecutiveSuccesses` at 0. -/
theorem three_collections_clamped (st : DMState) (t1 t2 t3 : ℚ)
    (h0 : st.consecutiveSuccesses = 0) :
    (dmRun st [DMEvent.food t1, DMEvent.food t2, DMEvent.food t3]).currentSpeed =
        max minSpeed (st.currentSpeed - speedAdjustmentAmount) ∧
      (dmRun st [DMEvent.food t1, DMEvent.food t2, DMEvent.food t3]).consecutiveSuccesses
        = 0 := by
  obtain ⟨speed, cs, deaths, hist, fct, lft⟩ := st
  simp only at h0
  subst h0
  simp [dmRun, dmStep, recordFoodCollection, speedIncreaseThreshold,
    increaseDifficulty]

/-- Counterexample for C8 as stated: starting at speed 60 (within bounds and
above `minSpeed`), three collections produce 50, not the claimed exact
decrease of 15 ms to 45. -/
theorem three_collections_counterexample :
    (dmRun (DMState.mk 60 0 0 [] [] 0)
        [DMEvent.food 0, DMEvent.food 0, DMEvent.food 0]).currentSpeed = 50 ∧
      (60 : ℚ) ≠ minSpeed ∧ (60 : ℚ) - speedAdjustmentAmount = 45 ∧
      (50 : ℚ) ≠ 45 := by
  refine ⟨?_, by norm_num [minSpeed], by norm_num [speedAdjustmentAmount], by norm_num⟩
  simp [dmRun, dmStep, recordFoodCollection, speedIncreaseThreshold,
    increaseDifficulty, minSpeed, speedAdjustmentAmount]
  norm_num

/-- Witness for C8 at the spec scenario: base speed 150 gives 135. -/
theorem three_collections_clamped_witness :
    (dmRun (DMState.mk 150 0 0 [] [] 0)
        [DMEvent.food 0, DMEvent.food 0, DMEvent.food 0]).currentSpeed = 135 ∧
      (dmRun (DMState.mk 150 0 0 [] [] 0)
        [DMEvent.food 0, DMEvent.food 0, DMEvent.food 0]).consecutiveSuccesses = 0 := by
  have h := three_collections_clamped (DMState.mk 150 0 0 [] [] 0) 0 0 0 rfl
  refine ⟨?_, h.2⟩
  rw [h.1, max_eq_right (by norm_num [minSpeed, speedAdjustmentAmount])]
  norm_num [speedAdjustmentAmount]

/-- Dropping the oldest history entry does not change the last three. -/
theorem recentGames_tail (l : List GameData) (hl : 4 ≤ l.length) :
    recentGames l.tail = recentGames l := by
  unfold recentGames
  rcases l with _ | ⟨a, t⟩
  · simp at hl
  · simp only [List.tail_cons, List.length_cons]
    have ht : 3 ≤ t.length := by simpa using hl
    rw [show t.length + 1 - 3 = (t.length - 3) + 1 by omega, List.drop_succ_cons]

/-- After the death counter has just been incremented to 1, the
analyze-and-adjust step changes nothing when the averages are good: the
struggling tests all fail, and the performing-well branch requires
`recentDeaths === 0`, which the increment has just made impossible. -/
theorem apa_after_death_keeps_speed (st1 : DMState) (gd : GameData)
    (hlen : ¬ st1.performanceHistory.length < 2)
    (hscore : 100 < averageScore (recentGames st1.performanceHistory))
    (hsurv : 30000 < averageSurvival (recentGames st1.performanceHistory))
    (hdeaths : st1.recentDeaths = 1) :
    analyzePerformanceAndAdjust st1 gd = st1 := by
  unfold analyzePerformanceAndAdjust
  rw [if_neg hlen]
  dsimp only
  have h1 : decide (averageScore (recentGames st1.performanceHistory) < 50) = false :=
    decide_eq_false (by linarith)
  have h2 : decide (averageSurvival (recentGames st1.performanceHistory) < 10000)
      = false :=
    decide_eq_false (by linarith)
  have h3 : decide (speedDecreaseThreshold ≤ st1.recentDeaths) = false := by
    rw [hdeaths]; decide
  have h4 : decide (st1.recentDeaths = 0) = false := by
    rw [hdeaths]; decide
  rw [h1, h2, h3, h4]
  simp

/-- Claim C9 (amended): under exactly the hypotheses of the claim — zero
recorded failures before the call, at least two history entries, good
averages over the last three entries after appending the sample, and a fast
sample collection interval — `recordGameEnd` leaves the speed unchanged.
The source increments `recentDeaths` before testing `recentDeaths === 0`,
so the performing-well speed decrease can never fire. -/
theorem performing_well_keeps_speed (st : DMState) (stats : GameStats) (now : ℚ)
    (hdeaths : st.recentDeaths = 0)
    (hlen : 2 ≤ st.performanceHistory.length)
    (hscore : 100 < averageScore
      (recentGames (st.performanceHistory ++ [gameDataOf st stats now])))
    (hsurv : 30000 < averageSurvival
      (recentGames (st.performanceHistory ++ [gameDataOf st stats now])))
    (hcoll : (gameDataOf st stats now).averageCollectionTime < 3000) :
    (recordGameEnd st stats now).currentSpeed = st.currentSpeed := by
  clear hcoll
  unfold recordGameEnd
  dsimp only
  set gd := gameDataOf st stats now with hgd
  set hist0 := st.performanceHistory ++ [gd] with hh0
  have hlen0 : 3 ≤ hist0.length := by
    rw [hh0]; simp; omega
  set hist1 := if maxHistoryLength < hist0.length then hist0.tail else hist0 with hh1
  have hrec : recentGames hist1 = recentGames hist0 := by
    rw [hh1]
    split
    · exact recentGames_tail hist0 (by simp [maxHistoryLength] at *; omega)
    · rfl
  have hlen1 : ¬ hist1.length < 2 := by
    rw [hh1]
    split
    · simp [maxHistoryLength] at *
      omega
    · omega
  have := apa_after_death_keeps_speed
    (DMState.mk st.currentSpeed 0 (st.recentDeaths + 1) hist1
      st.foodCollectionTimes st.lastFoodTime) gd
    (by simpa using hlen1)
    (by simpa [hrec] using hscore)
    (by simpa [hrec] using hsurv)
    (by simp [hdeaths])
  rw [this]

/-- Counterexample for C9 as stated: a concrete call satisfying all the
claimed hypotheses leaves the speed at 150 instead of decreasing it by the
fixed step to 135. -/
theorem recordGameEnd_wellperforming_counterexample :
    (DMState.mk 150 0 0
        [GameData.mk 150 5 40000 10 0 150 0, GameData.mk 150 5 40000 10 0 150 0]
        [1000] 0).recentDeaths = 0 ∧
      2 ≤ (DMState.mk 150 0 0
        [GameData.mk 150 5 40000 10 0 150 0, GameData.mk 150 5 40000 10 0 150 0]
        [1000] 0).performanceHistory.length ∧
      100 < averageScore (recentGames
        ((DMState.mk 150 0 0
          [GameData.mk 150 5 40000 10 0 150 0, GameData.mk 150 5 40000 10 0 150 0]
          [1000] 0).performanceHistory ++
         [gameDataOf (DMState.mk 150 0 0
          [GameData.mk 150 5 40000 10 0 150 0, GameData.mk 150 5 40000 10 0 150 0]
          [1000] 0) (GameStats.mk 150 6 40000 11) 5])) ∧
      30000 < averageSurvival (recentGames
        ((DMState.mk 150 0 0
          [GameData.mk 150 5 40000 10 0 150 0, GameData.mk 150 5 40000 10 0 150 0]
          [1000] 0).performanceHistory ++
         [gameDataOf (DMState.mk 150 0 0
          [GameData.mk 150 5 40000 10 0 150 0, GameData.mk 150 5 40000 10 0 150 0]
          [1000] 0) (GameStats.mk 150 6 40000 11) 5])) ∧
      (gameDataOf (DMState.mk 150 0 0
          [GameData.mk 150 5 40000 10 0 150 0, GameData.mk 150 5 40000 10 0 150 0]
          [1000] 0) (GameStats.mk 150 6 40000 11) 5).averageCollectionTime < 3000 ∧
      (recordGameEnd (DMState.mk 150 0 0
          [GameData.mk 150 5 40000 10 0 150 0, GameData.mk 150 5 40000 10 0 150 0]
          [1000] 0) (GameStats.mk 150 6 40000 11) 5).currentSpeed = 150 ∧
      max minSpeed ((150 : ℚ) - speedAdjustmentAmount) = 135 ∧ (150 : ℚ) ≠ 135 := by
  refine ⟨rfl, by norm_num, ?_, ?_, ?_, ?_, ?_, by norm_num⟩
  · norm_num [averageScore, recentGames, gameDataOf, calculateAverageCollectionTime]
  · norm_num [averageSurvival, recentGames, gameDataOf, calculateAverageCollectionTime]
  · norm_num [gameDataOf, calculateAverageCollectionTime]
  · norm_num [recordGameEnd, gameDataOf, calculateAverageCollectionTime,
      analyzePerformanceAndAdjust, recentGames, averageScore, averageSurvival,
      maxHistoryLength, speedDecreaseThreshold, decreaseDifficulty, increaseDifficulty]
  · rw [max_eq_right (by norm_num [minSpeed, speedAdjustmentAmount])]
    norm_num [speedAdjustmentAmount]

/-- Witness for the amended C9 at the counterexample input. -/
theorem performing_well_keeps_speed_witness :
    (recordGameEnd (DMState.mk 150 0 0
        [GameData.mk 150 5 40000 10 0 150 0, GameData.mk 150 5 40000 10 0 150 0]
        [1000] 0) (GameStats.mk 150 6 40000 11) 5).currentSpeed =
      (DMState.mk 150 0 0
        [GameData.mk 150 5 40000 10 0 150 0, GameData.mk 150 5 40000 10 0 150 0]
        [1000] 0).currentSpeed :=
  performing_well_keeps_speed _ _ _ rfl (by norm_num)
    (by norm_num [averageScore, recentGames, gameDataOf, calculateAverageCollectionTime])
    (by norm_num [averageSurvival, recentGames, gameDataOf, calculateAverageCollectionTime])
    (by norm_num [gameDataOf, calculateAverageCollectionTime])

/-! PathfindingEngine fallback-ranking claim -/

/-- Claim C4: `getFallbackSuggestions` produces one candidate for exactly
each of the up-to-4 in-bounds, unoccupied orthogonal neighbours of the
position (those listed by `findSafeMoves`), sorted descending by score, and
its moves list is empty when all four neighbours are blocked or out of
bounds. -/
theorem fallback_suggestions_ranked (w h : Nat) (position target : Pos)
    (obstacles : List Pos) :
    ((getFallbackSuggestions w h position target obstacles).moves.map
        (fun m => m.direction)).Perm (findSafeMoves w h position obstacles) ∧
      (∀ m ∈ (getFallbackSuggestions w h position target obstacles).moves,
        m.position = getMovePosition position m.direction) ∧
      (getFallbackSuggestions w h position target obstacles).moves.Sorted candBefore ∧
      (∀ direction : String,
        direction ∈ findSafeMoves w h position obstacles ↔
          (direction ∈ (["up", "down", "left", "right"] : List String) ∧
            isValidPosition w h (getMovePosition position direction) = true ∧
            getMovePosition position direction ∉ obstacles)) ∧
      (findSafeMoves w h position obstacles = [] →
        (getFallbackSuggestions w h position target obstacles).moves = []) := by
  have hchar : ∀ direction : String,
      direction ∈ findSafeMoves w h position obstacles ↔
        (direction ∈ (["up", "down", "left", "right"] : List String) ∧
          isValidPosition w h (getMovePosition position direction) = true ∧
          getMovePosition position direction ∉ obstacles) := by
    intro direction
    simp [findSafeMoves, List.mem_filter]
  unfold getFallbackSuggestions
  dsimp only
  by_cases hzero : (findSafeMoves w h position obstacles).length = 0
  · rw [if_pos hzero]
    have he : findSafeMoves w h position obstacles = [] :=
      List.length_eq_zero.mp hzero
    exact ⟨by simp [he], by simp, List.sorted_nil, hchar, fun _ => rfl⟩
  · rw [if_neg hzero]
    have hnz := hzero
    set safeMoves := findSafeMoves w h position obstacles with hs
    set scored := safeMoves.map (fun direction =>
      let movePos := getMovePosition position direction
      let score := calculateMoveScore w h movePos target obstacles
      MoveCandidate.mk direction movePos score
        (getMoveReasoning w h movePos target obstacles score)) with hsc
    refine ⟨?_, ?_, ?_, hchar, ?_⟩
    · have hperm : (scored.insertionSort candBefore).Perm scored :=
        List.perm_insertionSort _ _
      have := hperm.map (fun m => m.direction)
      refine this.trans ?_
      rw [hsc, List.map_map]
      have : ((fun (m : MoveCandidate) => m.direction) ∘ (fun direction =>
          let movePos := getMovePosition position direction
          let score := calculateMoveScore w h movePos target obstacles
          MoveCandidate.mk direction movePos score
            (getMoveReasoning w h movePos target obstacles score))) = id := by
        funext d; rfl
      rw [this, List.map_id]
    · intro m hm
      have hm' : m ∈ scored := by
        have hperm : (scored.insertionSort candBefore).Perm scored :=
          List.perm_insertionSort _ _
        exact hperm.mem_iff.mp hm
      rw [hsc] at hm'
      rcases List.mem_map.mp hm' with ⟨d, _, hd⟩
      subst hd
      rfl
    · exact List.sorted_insertionSort _ _
    · intro hempty
      rw [hempty] at hnz
      simp at hnz

/-- Witness for C4 at a concrete enclosed position: the corner of a 2 by 2
board with both neighbours occupied yields an empty moves list. -/
theorem fallback_suggestions_ranked_witness :
    (getFallbackSuggestions 2 2 (Pos.mk 0 0) (Pos.mk 1 1)
        [Pos.mk 0 1, Pos.mk 1 0]).moves = [] :=
  (fallback_suggestions_ranked 2 2 (Pos.mk 0 0) (Pos.mk 1 1)
    [Pos.mk 0 1, Pos.mk 1 0]).2.2.2.2 (by decide)

end Snake

namespace Snake

theorem heuristic_comm (a b : Pos) : heuristic a b = heuristic b a := by
  unfold heuristic
  omega

theorem heuristic_triangle (a b c : Pos) :
    heuristic a c ≤ heuristic a b + heuristic b c := by
  unfold heuristic
  omega

theorem heuristic_eq_zero (a b : Pos) : heuristic a b = 0 ↔ a = b := by
  unfold heuristic
  constructor
  · intro hz
    have hx : a.x = b.x := by omega
    have hy : a.y = b.y := by omega
    cases a; cases b
    simp_all
  · intro hab
    subst hab
    omega

theorem mem_getNeighbors (w h : Nat) (p q : Pos) :
    q ∈ getNeighbors w h p ↔ heuristic p q = 1 ∧ isValidPosition w h q = true := by
  unfold getNeighbors dirOffsets
  simp only [List.map_cons, List.map_nil, List.mem_filter]
  constructor
  · rintro ⟨hmem, hval⟩
    refine ⟨?_, hval⟩
    simp only [List.mem_cons, List.not_mem_nil, or_false] at hmem
    rcases hmem with rfl | rfl | rfl | rfl <;> simp [heuristic]
  · rintro ⟨hadj, hval⟩
    refine ⟨?_, hval⟩
    unfold heuristic at hadj
    simp only [List.mem_cons, List.not_mem_nil, or_false]
    have : (q.x = p.x ∧ (q.y = p.y - 1 ∨ q.y = p.y + 1)) ∨
        (q.y = p.y ∧ (q.x = p.x - 1 ∨ q.x = p.x + 1)) := by omega
    rcases q with ⟨qx, qy⟩
    rcases this with ⟨hx, hy | hy⟩ | ⟨hy, hx | hx⟩ <;>
      simp_all <;> omega

end Snake

namespace Snake

theorem reachStep_subset_self (w h : Nat) (obstacles : List Pos) (S : Finset Pos) :
    S ⊆ reachStep w h obstacles S := by
  unfold reachStep
  exact Finset.subset_union_left

theorem reachStep_mono (w h : Nat) (obstacles : List Pos) {S T : Finset Pos}
    (hST : S ⊆ T) : reachStep w h obstacles S ⊆ reachStep w h obstacles T := by
  unfold reachStep
  intro x hx
  rcases Finset.mem_union.mp hx with hx | hx
  · exact Finset.mem_union_left _ (hST hx)
  · rcases Finset.mem_biUnion.mp hx with ⟨p, hp, hxp⟩
    exact Finset.mem_union_right _ (Finset.mem_biUnion.mpr ⟨p, hST hp, hxp⟩)

theorem mem_reachStep (w h : Nat) (obstacles : List Pos) (S : Finset Pos) (z : Pos) :
    z ∈ reachStep w h obstacles S ↔
      z ∈ S ∨ ∃ p ∈ S, z ∈ getNeighbors w h p ∧ z ∉ obstacles := by
  unfold reachStep
  simp [List.mem_filter]

theorem reachN_succ (w h : Nat) (obstacles : List Pos) (src : Pos) (n : Nat) :
    reachN w h obstacles src (n + 1) =
      reachStep w h obstacles (reachN w h obstacles src n) := by
  unfold reachN
  rw [Function.iterate_succ_apply']

theorem reachN_zero (w h : Nat) (obstacles : List Pos) (src : Pos) :
    reachN w h obstacles src 0 = {src} := rfl

theorem reachN_mono_succ (w h : Nat) (obstacles : List Pos) (src : Pos) (n : Nat) :
    reachN w h obstacles src n ⊆ reachN w h obstacles src (n + 1) := by
  rw [reachN_succ]
  exact reachStep_subset_self _ _ _ _

theorem reachN_mono (w h : Nat) (obstacles : List Pos) (src : Pos) {m n : Nat}
    (hmn : m ≤ n) : reachN w h obstacles src m ⊆ reachN w h obstacles src n := by
  induction n with
  | zero =>
    have : m = 0 := Nat.le_zero.mp hmn
    subst this
    exact Finset.Subset.refl _
  | succ k ih =>
    rcases Nat.lt_or_ge m (k + 1) with hlt | hge
    · exact (ih (Nat.lt_succ_iff.mp hlt)).trans (reachN_mono_succ w h obstacles src k)
    · have : m = k + 1 := le_antisymm hmn hge
      subst this
      exact Finset.Subset.refl _

theorem src_mem_reachN (w h : Nat) (obstacles : List Pos) (src : Pos) (n : Nat) :
    src ∈ reachN w h obstacles src n :=
  reachN_mono w h obstacles src (Nat.zero_le n) (by simp [reachN_zero])

/-- Shifting the source one step outward. -/
theorem reachN_shift (w h : Nat) (obstacles : List Pos) (src s : Pos)
    (hs : s ∈ getNeighbors w h src) (hso : s ∉ obstacles) (n : Nat) :
    reachN w h obstacles s n ⊆ reachN w h obstacles src (n + 1) := by
  induction n with
  | zero =>
    intro z hz
    rw [reachN_zero] at hz
    rw [Finset.mem_singleton] at hz
    subst hz
    rw [reachN_succ, mem_reachStep]
    exact Or.inr ⟨src, src_mem_reachN w h obstacles src 0, hs, hso⟩
  | succ k ih =>
    rw [reachN_succ, reachN_succ]
    exact reachStep_mono w h obstacles ih

end Snake

namespace Snake

theorem validPath_ne_nil {w h : Nat} {obstacles : List Pos} {src z : Pos}
    {p : List Pos} (hp : ValidPath w h obstacles src z p) : p ≠ [] := by
  rcases hp with ⟨hhead, -⟩
  intro he
  subst he
  simp at hhead

theorem validPath_singleton (w h : Nat) (obstacles : List Pos) (src : Pos)
    (hsrc : isValidPosition w h src = true) :
    ValidPath w h obstacles src src [src] := by
  refine ⟨rfl, rfl, List.chain'_singleton _, ?_, ?_⟩
  · intro q hq
    simp at hq
    subst hq
    exact hsrc
  · intro q hq
    simp at hq

theorem validPath_snoc {w h : Nat} {obstacles : List Pos} {src z0 : Pos}
    {q : List Pos} (hq : ValidPath w h obstacles src z0 q) (z : Pos)
    (hadj : heuristic z0 z = 1) (hzv : isValidPosition w h z = true)
    (hzo : z ∉ obstacles) :
    ValidPath w h obstacles src z (q ++ [z]) := by
  obtain ⟨hhead, hlast, hchain, hvalid, hobs⟩ := hq
  have hqne : q ≠ [] := by
    intro he; subst he; simp at hhead
  refine ⟨?_, ?_, ?_, ?_, ?_⟩
  · rcases q with - | ⟨a, l⟩
    · simp at hhead
    · simpa using hhead
  · simp [List.getLast?_concat]
  · rw [List.chain'_append]
    refine ⟨hchain, List.chain'_singleton _, ?_⟩
    intro x hx y hy
    simp at hy
    subst hy
    rw [hlast] at hx
    simp at hx
    subst hx
    exact hadj
  · intro r hr
    rcases List.mem_append.mp hr with hr | hr
    · exact hvalid r hr
    · simp at hr; subst hr; exact hzv
  · intro r hr
    rcases q with - | ⟨a, l⟩
    · simp at hhead
    · simp only [List.cons_append, List.tail_cons] at hr
      rcases List.mem_append.mp hr with hr | hr
      · exact hobs r hr
      · simp at hr; subst hr; exact hzo

end Snake

namespace Snake

theorem validPath_cons_cons {w h : Nat} {obstacles : List Pos} {src z a b : Pos}
    {l : List Pos} (hp : ValidPath w h obstacles src z (a :: b :: l)) :
    a = src ∧ ValidPath w h obstacles b z (b :: l) ∧ heuristic a b = 1 ∧
      b ∉ obstacles := by
  obtain ⟨hhead, hlast, hchain, hvalid, hobs⟩ := hp
  simp at hhead
  refine ⟨hhead, ⟨rfl, ?_, ?_, ?_, ?_⟩, ?_, ?_⟩
  · simpa using hlast
  · exact (List.chain'_cons.mp hchain).2
  · intro q hq
    exact hvalid q (List.mem_cons_of_mem a hq)
  · intro q hq
    simp only [List.tail_cons] at hobs ⊢
    exact hobs q (List.mem_cons_of_mem b hq)
  · exact (List.chain'_cons.mp hchain).1
  · exact hobs b (by simp)

theorem validPath_mem_reachN {w h : Nat} {obstacles : List Pos} :
    ∀ (p : List Pos) (src z : Pos), ValidPath w h obstacles src z p →
      z ∈ reachN w h obstacles src (p.length - 1) := by
  intro p
  induction p with
  | nil =>
    intro src z hp
    exact absurd rfl (validPath_ne_nil hp)
  | cons a l ih =>
    intro src z hp
    rcases l with - | ⟨b, l'⟩
    · obtain ⟨hhead, hlast, -, -, -⟩ := hp
      simp at hhead hlast
      subst hhead
      subst hlast
      simpa using src_mem_reachN w h obstacles a 0
    · obtain ⟨ha, htail, hadj, hbo⟩ := validPath_cons_cons hp
      subst ha
      have hz := ih b z htail
      have hbv : isValidPosition w h b = true := by
        rcases htail with ⟨-, -, -, hvalid, -⟩
        exact hvalid b (by simp)
      have hb : b ∈ getNeighbors w h a :=
        (mem_getNeighbors w h a b).mpr ⟨hadj, hbv⟩
      have := reachN_shift w h obstacles a b hb hbo ((b :: l').length - 1)
      have hz' := this hz
      simpa using hz'

theorem reachN_validPath {w h : Nat} {obstacles : List Pos} {src : Pos}
    (hsrc : isValidPosition w h src = true) :
    ∀ (n : Nat) (z : Pos), z ∈ reachN w h obstacles src n →
      ∃ p, ValidPath w h obstacles src z p ∧ p.length ≤ n + 1 := by
  intro n
  induction n with
  | zero =>
    intro z hz
    rw [reachN_zero, Finset.mem_singleton] at hz
    subst hz
    exact ⟨[z], validPath_singleton w h obstacles z hsrc, by simp⟩
  | succ k ih =>
    intro z hz
    rw [reachN_succ, mem_reachStep] at hz
    rcases hz with hz | ⟨p0, hp0, hzn, hzo⟩
    · rcases ih z hz with ⟨p, hp, hlen⟩
      exact ⟨p, hp, hlen.trans (Nat.le_succ _)⟩
    · rcases ih p0 hp0 with ⟨p, hp, hlen⟩
      rcases (mem_getNeighbors w h p0 z).mp hzn with ⟨hadj, hzv⟩
      refine ⟨p ++ [z], validPath_snoc hp z hadj hzv hzo, ?_⟩
      simp
      omega

end Snake

namespace Snake

theorem distIs_exists {w h : Nat} {obstacles : List Pos} {src z : Pos} {n : Nat}
    (hz : z ∈ reachN w h obstacles src n) :
    ∃ d, distIs w h obstacles src z d ∧ d ≤ n := by
  have hex : ∃ m, z ∈ reachN w h obstacles src m := ⟨n, hz⟩
  exact ⟨Nat.find hex, ⟨Nat.find_spec hex, fun m hm => Nat.find_min' hex hm⟩,
    Nat.find_min' hex hz⟩

theorem distIs_unique {w h : Nat} {obstacles : List Pos} {src z : Pos} {d d' : Nat}
    (h1 : distIs w h obstacles src z d) (h2 : distIs w h obstacles src z d') :
    d = d' :=
  le_antisymm (h1.2 d' h2.1) (h2.2 d h1.1)

theorem distIs_self (w h : Nat) (obstacles : List Pos) (src : Pos) :
    distIs w h obstacles src src 0 :=
  ⟨src_mem_reachN w h obstacles src 0, fun m _ => Nat.zero_le m⟩

theorem distIs_pos {w h : Nat} {obstacles : List Pos} {src z : Pos} {d : Nat}
    (hd : distIs w h obstacles src z d) (hne : z ≠ src) : 1 ≤ d := by
  by_contra hlt
  push_neg at hlt
  interval_cases d
  have := hd.1
  rw [reachN_zero, Finset.mem_singleton] at this
  exact hne this

/-- Any valid path needs at least the Manhattan distance in steps. -/
theorem validPath_heuristic_lt_length {w h : Nat} {obstacles : List Pos} :
    ∀ (p : List Pos) (y z : Pos), ValidPath w h obstacles y z p →
      heuristic y z + 1 ≤ p.length := by
  intro p
  induction p with
  | nil => intro y z hp; exact absurd rfl (validPath_ne_nil hp)
  | cons a l ih =>
    intro y z hp
    rcases l with - | ⟨b, l'⟩
    · obtain ⟨hhead, hlast, -, -, -⟩ := hp
      simp at hhead hlast
      subst hhead
      subst hlast
      simp [heuristic]
    · obtain ⟨ha, htail, hadj, -⟩ := validPath_cons_cons hp
      subst ha
      have hb := ih b z htail
      have htri := heuristic_triangle a b z
      simp at hb ⊢
      omega

/-- First-step decomposition of a positive grid distance. -/
theorem distIs_step {w h : Nat} {obstacles : List Pos} {src z : Pos} {d : Nat}
    (hsrc : isValidPosition w h src = true)
    (hd : distIs w h obstacles src z d) (hne : z ≠ src) :
    ∃ s, s ∈ getNeighbors w h src ∧ s ∉ obstacles ∧
      ∃ ds, distIs w h obstacles s z ds ∧ ds + 1 ≤ d := by
  have hd1 := distIs_pos hd hne
  rcases reachN_validPath hsrc d z hd.1 with ⟨p, hp, hlen⟩
  rcases p with - | ⟨a, l⟩
  · exact absurd rfl (validPath_ne_nil hp)
  rcases l with - | ⟨b, l'⟩
  · obtain ⟨hhead, hlast, -, -, -⟩ := hp
    simp at hhead hlast
    subst hhead
    subst hlast
    exact absurd rfl hne
  obtain ⟨ha, htail, hadj, hbo⟩ := validPath_cons_cons hp
  subst ha
  have hbv : isValidPosition w h b = true := by
    rcases htail with ⟨-, -, -, hvalid, -⟩
    exact hvalid b (by simp)
  have hz := validPath_mem_reachN _ b z htail
  rcases distIs_exists hz with ⟨ds, hds, hdsle⟩
  refine ⟨b, (mem_getNeighbors w h a b).mpr ⟨hadj, hbv⟩, hbo, ds, hds, ?_⟩
  simp at hdsle hlen
  omega

/-- Extending a distance by one neighbour step. -/
theorem distIs_snoc {w h : Nat} {obstacles : List Pos} {src z s : Pos} {d : Nat}
    (hsrc : isValidPosition w h src = true)
    (hd : distIs w h obstacles src z d)
    (hs : s ∈ getNeighbors w h z) (hso : s ∉ obstacles) :
    ∃ ds, distIs w h obstacles src s ds ∧ ds ≤ d + 1 := by
  rcases reachN_validPath hsrc d z hd.1 with ⟨p, hp, hlen⟩
  rcases (mem_getNeighbors w h z s).mp hs with ⟨hadj, hsv⟩
  have hps := validPath_snoc hp s hadj hsv hso
  have := validPath_mem_reachN _ src s hps
  rcases distIs_exists this with ⟨ds, hds, hdsle⟩
  refine ⟨ds, hds, ?_⟩
  simp at hdsle
  omega

end Snake

namespace Snake

theorem mem_boardCells (w h : Nat) (p : Pos) :
    p ∈ boardCells w h ↔ isValidPosition w h p = true := by
  unfold boardCells
  rw [Finset.mem_image]
  unfold isValidPosition
  simp only [Finset.mem_product, Finset.mem_range, Bool.and_eq_true, decide_eq_true_eq]
  constructor
  · rintro ⟨⟨a, b⟩, ⟨ha, hb⟩, rfl⟩
    simp only
    refine ⟨⟨⟨by omega, by omega⟩, by omega⟩, by omega⟩
  · rintro ⟨⟨⟨hx0, hxw⟩, hy0⟩, hyh⟩
    rcases p with ⟨px, py⟩
    simp only at hx0 hxw hy0 hyh
    exact ⟨⟨px.toNat, py.toNat⟩, ⟨by omega, by omega⟩,
      by simp only [Pos.mk.injEq]; omega⟩

theorem boardCells_card (w h : Nat) : (boardCells w h).card ≤ w * h := by
  unfold boardCells
  calc ((Finset.range w ×ˢ Finset.range h).image _).card
      ≤ (Finset.range w ×ˢ Finset.range h).card := Finset.card_image_le
    _ = w * h := by rw [Finset.card_product, Finset.card_range, Finset.card_range]

theorem reachN_subset_boardCells {w h : Nat} {obstacles : List Pos} {src : Pos}
    (hsrc : isValidPosition w h src = true) (n : Nat) :
    reachN w h obstacles src n ⊆ boardCells w h := by
  induction n with
  | zero =>
    rw [reachN_zero]
    intro z hz
    rw [Finset.mem_singleton] at hz
    subst hz
    exact (mem_boardCells w h z).mpr hsrc
  | succ k ih =>
    rw [reachN_succ]
    intro z hz
    rw [mem_reachStep] at hz
    rcases hz with hz | ⟨p, hp, hzn, -⟩
    · exact ih hz
    · exact (mem_boardCells w h z).mpr ((mem_getNeighbors w h p z).mp hzn).2

theorem reachN_stab_of_eq {w h : Nat} {obstacles : List Pos} {src : Pos} {k : Nat}
    (heq : reachN w h obstacles src (k + 1) = reachN w h obstacles src k) :
    ∀ j, reachN w h obstacles src (k + j) = reachN w h obstacles src k := by
  intro j
  induction j with
  | zero => rfl
  | succ i ih =>
    have : k + (i + 1) = (k + i) + 1 := by omega
    rw [this, reachN_succ, ih, ← reachN_succ, heq]

theorem reachN_stabilizes {w h : Nat} {obstacles : List Pos} {src : Pos}
    (hsrc : isValidPosition w h src = true) :
    ∃ k ≤ w * h, reachN w h obstacles src (k + 1) = reachN w h obstacles src k := by
  by_contra hno
  push_neg at hno
  have hgrow : ∀ n, n ≤ w * h + 1 → n + 1 ≤ (reachN w h obstacles src n).card := by
    intro n
    induction n with
    | zero =>
      intro _hn
      rw [reachN_zero]
      simp
    | succ k ih =>
      intro hk
      have hne := hno k (by omega)
      have hsub := reachN_mono_succ w h obstacles src k
      have hss : reachN w h obstacles src k ⊂ reachN w h obstacles src (k + 1) :=
        ssubset_of_subset_of_ne hsub (Ne.symm hne)
      have := Finset.card_lt_card hss
      have hik := ih (by omega)
      omega
  have h1 := hgrow (w * h + 1) le_rfl
  have h2 : (reachN w h obstacles src (w * h + 1)).card ≤ w * h :=
    le_trans (Finset.card_le_card (reachN_subset_boardCells hsrc _)) (boardCells_card w h)
  omega

theorem reachN_subset_square {w h : Nat} {obstacles : List Pos} {src : Pos}
    (hsrc : isValidPosition w h src = true) (n : Nat) :
    reachN w h obstacles src n ⊆ reachN w h obstacles src (w * h) := by
  rcases @reachN_stabilizes w h obstacles src hsrc with ⟨k, hk, heq⟩
  rcases Nat.le_total n (w * h) with hle | hge
  · exact reachN_mono w h obstacles src hle
  · have h1 : reachN w h obstacles src n = reachN w h obstacles src k := by
      have : n = k + (n - k) := by omega
      rw [this]
      exact reachN_stab_of_eq heq _
    rw [h1]
    exact reachN_mono w h obstacles src hk

theorem connects_iff_distIs {w h : Nat} {obstacles : List Pos} {src goal : Pos}
    (hsrc : isValidPosition w h src = true) :
    Connects w h obstacles src goal ↔ ∃ d, distIs w h obstacles src goal d := by
  constructor
  · rintro ⟨p, hp⟩
    have := validPath_mem_reachN p src goal hp
    rcases distIs_exists this with ⟨d, hd, -⟩
    exact ⟨d, hd⟩
  · rintro ⟨d, hd⟩
    rcases reachN_validPath hsrc d goal hd.1 with ⟨p, hp, -⟩
    exact ⟨p, hp⟩

end Snake

namespace Snake

theorem marchX_cons_shape (n : Nat) (p : Pos) (tx : Int) :
    ∃ t, marchX n p tx = p :: t := by
  cases n with
  | zero => exact ⟨[], rfl⟩
  | succ k => exact ⟨_, rfl⟩

theorem marchX_length (n : Nat) : ∀ (p : Pos) (tx : Int),
    (marchX n p tx).length = n + 1 := by
  induction n with
  | zero => intro p tx; rfl
  | succ k ih =>
    intro p tx
    unfold marchX
    simp [ih]

theorem marchX_head (n : Nat) (p : Pos) (tx : Int) :
    (marchX n p tx).head? = some p := by
  rcases marchX_cons_shape n p tx with ⟨t, ht⟩
  rw [ht]
  rfl

theorem marchX_chain (n : Nat) : ∀ (p : Pos) (tx : Int),
    List.Chain' adjStep (marchX n p tx) := by
  induction n with
  | zero => intro p tx; exact List.chain'_singleton _
  | succ k ih =>
    intro p tx
    show List.Chain' adjStep (p :: marchX k _ tx)
    rw [List.chain'_cons']
    refine ⟨?_, ih _ _⟩
    intro y hy
    rw [marchX_head] at hy
    simp at hy
    subst hy
    show (p.x - (p.x + if p.x < tx then 1 else -1)).natAbs + (p.y - p.y).natAbs = 1
    split <;> omega

theorem marchX_getLast (n : Nat) : ∀ (p : Pos) (tx : Int),
    n = (tx - p.x).natAbs →
    (marchX n p tx).getLast? = some (Pos.mk tx p.y) := by
  induction n with
  | zero =>
    intro p tx hn
    have : p.x = tx := by omega
    rcases p with ⟨px, py⟩
    simp only at this
    subst this
    rfl
  | succ k ih =>
    intro p tx hn
    show (p :: marchX k _ tx).getLast? = _
    rcases marchX_cons_shape k (Pos.mk (p.x + if p.x < tx then 1 else -1) p.y) tx with
      ⟨t, ht⟩
    rw [ht, List.getLast?_cons_cons, ← ht]
    have harg : k = (tx - (p.x + if p.x < tx then 1 else -1)).natAbs := by
      split <;> omega
    have hres : (marchX k (Pos.mk (p.x + if p.x < tx then 1 else -1) p.y) tx).getLast?
        = some (Pos.mk tx p.y) :=
      ih (Pos.mk (p.x + if p.x < tx then 1 else -1) p.y) tx harg
    exact hres

theorem marchX_mem (n : Nat) : ∀ (p : Pos) (tx : Int) (q : Pos),
    n = (tx - p.x).natAbs → q ∈ marchX n p tx →
    q.y = p.y ∧ min p.x tx ≤ q.x ∧ q.x ≤ max p.x tx := by
  induction n with
  | zero =>
    intro p tx q hn hq
    have hx : p.x = tx := by omega
    simp [marchX] at hq
    subst hq
    omega
  | succ k ih =>
    intro p tx q hn hq
    show q.y = p.y ∧ _
    rcases List.mem_cons.mp hq with rfl | hq'
    · omega
    · by_cases hc : p.x < tx
      · rw [if_pos hc] at hq'
        have hstep : k = (tx - (p.x + 1)).natAbs := by omega
        have h2 : q.y = p.y ∧ min (p.x + 1) tx ≤ q.x ∧ q.x ≤ max (p.x + 1) tx :=
          ih (Pos.mk (p.x + 1) p.y) tx q hstep hq'
        omega
      · rw [if_neg hc] at hq'
        have hstep : k = (tx - (p.x + -1)).natAbs := by omega
        have h2 : q.y = p.y ∧ min (p.x + -1) tx ≤ q.x ∧ q.x ≤ max (p.x + -1) tx :=
          ih (Pos.mk (p.x + -1) p.y) tx q hstep hq'
        omega

end Snake

namespace Snake

theorem marchY_cons_shape (n : Nat) (p : Pos) (ty : Int) :
    ∃ t, marchY n p ty = p :: t := by
  cases n with
  | zero => exact ⟨[], rfl⟩
  | succ k => exact ⟨_, rfl⟩

theorem marchY_length (n : Nat) : ∀ (p : Pos) (ty : Int),
    (marchY n p ty).length = n + 1 := by
  induction n with
  | zero => intro p ty; rfl
  | succ k ih =>
    intro p ty
    unfold marchY
    simp [ih]

theorem marchY_head (n : Nat) (p : Pos) (ty : Int) :
    (marchY n p ty).head? = some p := by
  rcases marchY_cons_shape n p ty with ⟨t, ht⟩
  rw [ht]
  rfl

theorem marchY_chain (n : Nat) : ∀ (p : Pos) (ty : Int),
    List.Chain' adjStep (marchY n p ty) := by
  induction n with
  | zero => intro p ty; exact List.chain'_singleton _
  | succ k ih =>
    intro p ty
    show List.Chain' adjStep (p :: marchY k _ ty)
    rw [List.chain'_cons']
    refine ⟨?_, ih _ _⟩
    intro y hy
    rw [marchY_head] at hy
    simp at hy
    subst hy
    show (p.x - p.x).natAbs + (p.y - (p.y + if p.y < ty then 1 else -1)).natAbs = 1
    split <;> omega

theorem marchY_getLast (n : Nat) : ∀ (p : Pos) (ty : Int),
    n = (ty - p.y).natAbs →
    (marchY n p ty).getLast? = some (Pos.mk p.x ty) := by
  induction n with
  | zero =>
    intro p ty hn
    have : p.y = ty := by omega
    rcases p with ⟨px, py⟩
    simp only at this
    subst this
    rfl
  | succ k ih =>
    intro p ty hn
    show (p :: marchY k _ ty).getLast? = _
    rcases marchY_cons_shape k (Pos.mk p.x (p.y + if p.y < ty then 1 else -1)) ty with
      ⟨t, ht⟩
    rw [ht, List.getLast?_cons_cons, ← ht]
    have harg : k = (ty - (p.y + if p.y < ty then 1 else -1)).natAbs := by
      split <;> omega
    have hres : (marchY k (Pos.mk p.x (p.y + if p.y < ty then 1 else -1)) ty).getLast?
        = some (Pos.mk p.x ty) :=
      ih (Pos.mk p.x (p.y + if p.y < ty then 1 else -1)) ty harg
    exact hres

theorem marchY_mem (n : Nat) : ∀ (p : Pos) (ty : Int) (q : Pos),
    n = (ty - p.y).natAbs → q ∈ marchY n p ty →
    q.x = p.x ∧ min p.y ty ≤ q.y ∧ q.y ≤ max p.y ty := by
  induction n with
  | zero =>
    intro p ty q hn hq
    simp [marchY] at hq
    subst hq
    omega
  | succ k ih =>
    intro p ty q hn hq
    rcases List.mem_cons.mp hq with rfl | hq'
    · omega
    · by_cases hc : p.y < ty
      · rw [if_pos hc] at hq'
        have hstep : k = (ty - (p.y + 1)).natAbs := by omega
        have h2 : q.x = p.x ∧ min (p.y + 1) ty ≤ q.y ∧ q.y ≤ max (p.y + 1) ty :=
          ih (Pos.mk p.x (p.y + 1)) ty q hstep hq'
        omega
      · rw [if_neg hc] at hq'
        have hstep : k = (ty - (p.y + -1)).natAbs := by omega
        have h2 : q.x = p.x ∧ min (p.y + -1) ty ≤ q.y ∧ q.y ≤ max (p.y + -1) ty :=
          ih (Pos.mk p.x (p.y + -1)) ty q hstep hq'
        omega

end Snake

namespace Snake

theorem staircase_spec (w h : Nat) (start goal : Pos)
    (hs : isValidPosition w h start = true) (hg : isValidPosition w h goal = true) :
    ValidPath w h [] start goal (staircase start goal) ∧
      (staircase start goal).length = heuristic start goal + 1 := by
  unfold staircase
  set nx := (goal.x - start.x).natAbs with hnx
  set ny := (goal.y - start.y).natAbs with hny
  set A := marchX nx start goal.x with hA
  set B := marchY ny (Pos.mk goal.x start.y) goal.y with hB
  have hAne : A ≠ [] := by
    rcases marchX_cons_shape nx start goal.x with ⟨t, ht⟩
    rw [hA, ht]
    simp
  have hAhead : A.head? = some start := marchX_head _ _ _
  have hAlast : A.getLast? = some (Pos.mk goal.x start.y) :=
    marchX_getLast nx start goal.x rfl
  have hBlast : B.getLast? = some goal := by
    have := marchY_getLast ny (Pos.mk goal.x start.y) goal.y (by simp [hny])
    rw [hB]
    rcases goal with ⟨gx, gy⟩
    simpa using this
  have hValid : ∀ q ∈ A ++ B.tail, isValidPosition w h q = true := by
    intro q hq
    unfold isValidPosition at hs hg ⊢
    simp only [Bool.and_eq_true, decide_eq_true_eq] at hs hg ⊢
    rcases List.mem_append.mp hq with hq | hq
    · have := marchX_mem nx start goal.x q rfl hq
      omega
    · have hq' : q ∈ B := List.mem_of_mem_tail hq
      have := marchY_mem ny (Pos.mk goal.x start.y) goal.y q (by simp [hny]) hq'
      simp only at this
      omega
  have hChain : List.Chain' adjStep (A ++ B.tail) := by
    rw [List.chain'_append]
    refine ⟨marchX_chain _ _ _, ?_, ?_⟩
    · rcases marchY_cons_shape ny (Pos.mk goal.x start.y) goal.y with ⟨t, ht⟩
      have := marchY_chain ny (Pos.mk goal.x start.y) goal.y
      rw [hB, ht]
      rw [ht] at this
      exact (List.chain'_cons'.mp this).2
    · intro x hx y hy
      rw [hAlast] at hx
      simp at hx
      subst hx
      rcases marchY_cons_shape ny (Pos.mk goal.x start.y) goal.y with ⟨t, ht⟩
      have hch := marchY_chain ny (Pos.mk goal.x start.y) goal.y
      rw [ht] at hch
      rw [hB, ht] at hy
      simp only [List.tail_cons] at hy
      exact (List.chain'_cons'.mp hch).1 y hy
  have hHead : (A ++ B.tail).head? = some start := by
    rcases A with - | ⟨a, l⟩
    · exact absurd rfl hAne
    · simpa using hAhead
  have hLast : (A ++ B.tail).getLast? = some goal := by
    rcases marchY_cons_shape ny (Pos.mk goal.x start.y) goal.y with ⟨t, ht⟩
    rcases ht' : t with - | ⟨b, t'⟩
    · subst ht'
      have : B.tail = [] := by rw [hB, ht]; rfl
      rw [this, List.append_nil]
      rw [hB, ht] at hBlast
      simp at hBlast
      rw [hAlast]
      rw [← hBlast]
    · have hBtail : B.tail = b :: t' := by rw [hB, ht, ht']; rfl
      rw [List.getLast?_append_of_ne_nil A (show B.tail ≠ [] by rw [hBtail]; simp)]
      rw [hBtail]
      have : B.getLast? = (b :: t').getLast? := by
        rw [hB, ht, ht', List.getLast?_cons_cons]
      rw [← this, hBlast]
  have hLen : (A ++ B.tail).length = heuristic start goal + 1 := by
    rw [List.length_append]
    have h1 : A.length = nx + 1 := marchX_length _ _ _
    have h2 : B.length = ny + 1 := marchY_length _ _ _
    have h3 : B.tail.length = B.length - 1 := by
      rcases marchY_cons_shape ny (Pos.mk goal.x start.y) goal.y with ⟨t, ht⟩
      rw [hB, ht]
      simp
    unfold heuristic
    omega
  exact ⟨⟨hHead, hLast, hChain, hValid, fun q hq => by simp⟩, hLen⟩

end Snake

namespace Snake

theorem mem_eraseIdx_nodup {l : List Pos} (hnd : l.Nodup) {k : Nat}
    (hk : k < l.length) (p : Pos) :
    p ∈ l.eraseIdx k ↔ (p ∈ l ∧ p ≠ l.get ⟨k, hk⟩) := by
  rw [List.mem_eraseIdx_iff_getElem]
  constructor
  · rintro ⟨i, hil, hik, rfl⟩
    refine ⟨List.getElem_mem hil, ?_⟩
    intro hcontra
    rw [List.get_eq_getElem] at hcontra
    exact hik ((List.Nodup.getElem_inj_iff hnd).mp hcontra)
  · rintro ⟨hmem, hne⟩
    rcases List.getElem_of_mem hmem with ⟨i, hil, rfl⟩
    refine ⟨i, hil, ?_, rfl⟩
    intro hik
    subst hik
    rw [List.get_eq_getElem] at hne
    exact hne rfl

theorem findMinFrom_pos (f : Pos → Option Nat) :
    ∀ (rest : List Pos) (best : Pos) (bestIdx idx : Nat),
      findMinFrom f best bestIdx idx rest = (best, bestIdx) ∨
        ∃ k, ∃ hk : k < rest.length,
          findMinFrom f best bestIdx idx rest = (rest.get ⟨k, hk⟩, idx + k) := by
  intro rest
  induction rest with
  | nil => intro best bestIdx idx; exact Or.inl rfl
  | cons q t ih =>
    intro best bestIdx idx
    unfold findMinFrom
    split
    · rcases ih q idx (idx + 1) with heq | ⟨k, hk, heq⟩
      · refine Or.inr ⟨0, by simp, ?_⟩
        simpa using heq
      · refine Or.inr ⟨k + 1, by simpa using hk, ?_⟩
        rw [heq]
        simp
        omega
    · rcases ih best bestIdx (idx + 1) with heq | ⟨k, hk, heq⟩
      · exact Or.inl heq
      · refine Or.inr ⟨k + 1, by simpa using hk, ?_⟩
        rw [heq]
        simp
        omega

theorem findMinFrom_min (f : Pos → Option Nat) :
    ∀ (rest : List Pos) (best : Pos) (bestIdx idx : Nat),
      (∀ y, y = best ∨ y ∈ rest → (f y).isSome = true) →
      ∃ fr, f (findMinFrom f best bestIdx idx rest).1 = some fr ∧
        ∀ y, (y = best ∨ y ∈ rest) → ∀ fy, f y = some fy → fr ≤ fy := by
  intro rest
  induction rest with
  | nil =>
    intro best bestIdx idx hdef
    rcases Option.isSome_iff_exists.mp (hdef best (Or.inl rfl)) with ⟨fb, hfb⟩
    refine ⟨fb, by simpa using hfb, ?_⟩
    rintro y (rfl | hy) fy hfy
    · rw [hfb] at hfy
      simp at hfy
      omega
    · simp at hy
  | cons q t ih =>
    intro best bestIdx idx hdef
    rcases Option.isSome_iff_exists.mp (hdef best (Or.inl rfl)) with ⟨fb, hfb⟩
    rcases Option.isSome_iff_exists.mp (hdef q (Or.inr (by simp))) with ⟨fq, hfq⟩
    unfold findMinFrom
    split
    · next hlt =>
      rw [hfq, hfb] at hlt
      simp only [jsLtOpt, decide_eq_true_eq] at hlt
      have hdef' : ∀ y, y = q ∨ y ∈ t → (f y).isSome = true := by
        rintro y (rfl | hy)
        · exact hdef y (Or.inr (by simp))
        · exact hdef y (Or.inr (by simp [hy]))
      rcases ih q idx (idx + 1) hdef' with ⟨fr, hfr, hmin⟩
      refine ⟨fr, hfr, ?_⟩
      rintro y (rfl | hy) fy hfy
      · have hq := hmin q (Or.inl rfl) fq hfq
        rw [hfb] at hfy
        simp at hfy
        omega
      · rcases List.mem_cons.mp hy with rfl | hy'
        · exact hmin y (Or.inl rfl) fy hfy
        · exact hmin y (Or.inr hy') fy hfy
    · next hge =>
      rw [hfq, hfb] at hge
      simp only [jsLtOpt, decide_eq_true_eq] at hge
      push_neg at hge
      have hdef' : ∀ y, y = best ∨ y ∈ t → (f y).isSome = true := by
        rintro y (rfl | hy)
        · exact hdef y (Or.inl rfl)
        · exact hdef y (Or.inr (by simp [hy]))
      rcases ih best bestIdx (idx + 1) hdef' with ⟨fr, hfr, hmin⟩
      refine ⟨fr, hfr, ?_⟩
      rintro y (rfl | hy) fy hfy
      · exact hmin y (Or.inl rfl) fy hfy
      · rcases List.mem_cons.mp hy with rfl | hy'
        · have hb := hmin best (Or.inl rfl) fb hfb
          rw [hfq] at hfy
          simp at hfy
          omega
        · exact hmin y (Or.inr hy') fy hfy

end Snake

namespace Snake

theorem reconstructPath_none (fuel : Nat) (cameFrom : Pos → Option Pos) (v : Pos)
    (acc : List Pos) (hnone : cameFrom v = none) :
    reconstructPath fuel cameFrom v acc = v :: acc := by
  cases fuel <;> simp [reconstructPath, hnone]

theorem reconstructPath_some (fuel : Nat) (cameFrom : Pos → Option Pos) (v u : Pos)
    (acc : List Pos) (hsome : cameFrom v = some u) :
    reconstructPath (fuel + 1) cameFrom v acc =
      reconstructPath fuel cameFrom u (v :: acc) := by
  simp [reconstructPath, hsome]

theorem reconstructPath_spec (w h : Nat) (obstacles : List Pos) (start : Pos)
    (cameFrom : Pos → Option Pos) (g : Pos → Option Nat)
    (hsv : isValidPosition w h start = true)
    (hterm : ∀ v, (g v).isSome = true → cameFrom v = none → v = start)
    (hcg : ∀ p q, cameFrom p = some q →
      ∃ mp mq, g p = some mp ∧ g q = some mq ∧ mq + 1 ≤ mp)
    (hca : ∀ p q, cameFrom p = some q →
      heuristic q p = 1 ∧ p ∉ obstacles ∧ isValidPosition w h p = true) :
    ∀ m v, g v = some m → ∀ fuel, m ≤ fuel → ∀ acc,
      ∃ pfx, reconstructPath fuel cameFrom v acc = pfx ++ acc ∧
        ValidPath w h obstacles start v pfx ∧ pfx.length ≤ m + 1 := by
  intro m
  induction m using Nat.strong_induction_on with
  | _ m ih =>
    intro v hgv fuel hfuel acc
    rcases hcv : cameFrom v with - | u
    · refine ⟨[v], by rw [reconstructPath_none fuel cameFrom v acc hcv]; rfl, ?_, by simp⟩
      have hv : v = start := hterm v (by simp [hgv]) hcv
      subst hv
      exact validPath_singleton w h obstacles v hsv
    · rcases hcg v u hcv with ⟨mp, mq, hgv', hgu, hlt⟩
      rw [hgv] at hgv'
      have hmp : mp = m := by simp at hgv'; omega
      subst hmp
      rcases fuel with - | fuel'
      · omega
      rcases ih mq (by omega) u hgu fuel' (by omega) (v :: acc) with
        ⟨pfx, heq, hvp, hlen⟩
      rcases hca v u hcv with ⟨hadj, hobs, hval⟩
      refine ⟨pfx ++ [v], ?_, validPath_snoc hvp v hadj hval hobs, ?_⟩
      · rw [reconstructPath_some fuel' cameFrom v u acc hcv, heq]
        simp
      · simp
        omega

end Snake

namespace Snake

theorem relaxNeighbor_skip (target cur : Pos) (obstacles : List Pos)
    (st : AStarState) (nbr : Pos) (hsk : nbr ∈ st.closedSet ∨ nbr ∈ obstacles) :
    relaxNeighbor target cur obstacles st nbr = st := by
  rcases hsk with hc | ho
  · simp [relaxNeighbor, hc]
  · simp [relaxNeighbor, ho]

theorem relaxNeighbor_keep_open (target cur : Pos) (obstacles : List Pos)
    (st : AStarState) (nbr : Pos) (hnc : nbr ∉ st.closedSet) (hno : nbr ∉ obstacles)
    (hop : nbr ∈ st.openSet)
    (hk : (st.gScore nbr).isSome = true ∧
      (st.gScore nbr).getD 0 ≤ (st.gScore cur).getD 0 + 1) :
    relaxNeighbor target cur obstacles st nbr = st := by
  simp [relaxNeighbor, hnc, hno, hop, hk.1, hk.2]

theorem relaxNeighbor_keep_push (target cur : Pos) (obstacles : List Pos)
    (st : AStarState) (nbr : Pos) (hnc : nbr ∉ st.closedSet) (hno : nbr ∉ obstacles)
    (hop : nbr ∉ st.openSet)
    (hk : (st.gScore nbr).isSome = true ∧
      (st.gScore nbr).getD 0 ≤ (st.gScore cur).getD 0 + 1) :
    relaxNeighbor target cur obstacles st nbr =
      { st with openSet := st.openSet ++ [nbr] } := by
  simp [relaxNeighbor, hnc, hno, hop, hk.1, hk.2]

theorem relaxNeighbor_update_open (target cur : Pos) (obstacles : List Pos)
    (st : AStarState) (nbr : Pos) (hnc : nbr ∉ st.closedSet) (hno : nbr ∉ obstacles)
    (hop : nbr ∈ st.openSet)
    (hk : ¬ ((st.gScore nbr).isSome = true ∧
      (st.gScore nbr).getD 0 ≤ (st.gScore cur).getD 0 + 1)) :
    relaxNeighbor target cur obstacles st nbr =
      { st with
        cameFrom := mapSet st.cameFrom nbr cur,
        gScore := mapSet st.gScore nbr ((st.gScore cur).getD 0 + 1),
        fScore := mapSet st.fScore nbr
          ((st.gScore cur).getD 0 + 1 + heuristic nbr target) } := by
  rw [Classical.not_and_iff_or_not_not] at hk
  rcases hk with hk | hk
  · simp [relaxNeighbor, hnc, hno, hop, hk]
  · simp [relaxNeighbor, hnc, hno, hop, hk]

theorem relaxNeighbor_update_push (target cur : Pos) (obstacles : List Pos)
    (st : AStarState) (nbr : Pos) (hnc : nbr ∉ st.closedSet) (hno : nbr ∉ obstacles)
    (hop : nbr ∉ st.openSet)
    (hk : ¬ ((st.gScore nbr).isSome = true ∧
      (st.gScore nbr).getD 0 ≤ (st.gScore cur).getD 0 + 1)) :
    relaxNeighbor target cur obstacles st nbr =
      { st with
        openSet := st.openSet ++ [nbr],
        cameFrom := mapSet st.cameFrom nbr cur,
        gScore := mapSet st.gScore nbr ((st.gScore cur).getD 0 + 1),
        fScore := mapSet st.fScore nbr
          ((st.gScore cur).getD 0 + 1 + heuristic nbr target) } := by
  rw [Classical.not_and_iff_or_not_not] at hk
  rcases hk with hk | hk
  · simp [relaxNeighbor, hnc, hno, hop, hk]
  · simp [relaxNeighbor, hnc, hno, hop, hk]

end Snake

namespace Snake

/-- Summary of one neighbour relaxation. -/
theorem relaxNeighbor_cases (target cur : Pos) (obstacles : List Pos)
    (st : AStarState) (nbr : Pos) :
    (relaxNeighbor target cur obstacles st nbr).closedSet = st.closedSet ∧
    (∀ p, p ≠ nbr →
      (relaxNeighbor target cur obstacles st nbr).gScore p = st.gScore p ∧
      (relaxNeighbor target cur obstacles st nbr).fScore p = st.fScore p ∧
      (relaxNeighbor target cur obstacles st nbr).cameFrom p = st.cameFrom p) ∧
    (((relaxNeighbor target cur obstacles st nbr).gScore nbr = st.gScore nbr ∧
      (relaxNeighbor target cur obstacles st nbr).fScore nbr = st.fScore nbr ∧
      (relaxNeighbor target cur obstacles st nbr).cameFrom nbr = st.cameFrom nbr) ∨
      (nbr ∉ st.closedSet ∧ nbr ∉ obstacles ∧
        (relaxNeighbor target cur obstacles st nbr).gScore nbr =
          some ((st.gScore cur).getD 0 + 1) ∧
        (relaxNeighbor target cur obstacles st nbr).fScore nbr =
          some ((st.gScore cur).getD 0 + 1 + heuristic nbr target) ∧
        (relaxNeighbor target cur obstacles st nbr).cameFrom nbr = some cur ∧
        (st.gScore nbr = none ∨ ∃ m, st.gScore nbr = some m ∧
          (st.gScore cur).getD 0 + 1 < m))) ∧
    (∃ ext, (relaxNeighbor target cur obstacles st nbr).openSet =
        st.openSet ++ ext ∧
      (ext = [] ∨ (ext = [nbr] ∧ nbr ∉ st.openSet ∧ nbr ∉ st.closedSet ∧
        nbr ∉ obstacles))) ∧
    (nbr ∉ st.closedSet → nbr ∉ obstacles →
      (nbr ∈ (relaxNeighbor target cur obstacles st nbr).openSet ∧
        ∃ mn, (relaxNeighbor target cur obstacles st nbr).gScore nbr = some mn ∧
          mn ≤ (st.gScore cur).getD 0 + 1)) := by
  by_cases hsk : nbr ∈ st.closedSet ∨ nbr ∈ obstacles
  · rw [relaxNeighbor_skip target cur obstacles st nbr hsk]
    refine ⟨rfl, fun p _ => ⟨rfl, rfl, rfl⟩, Or.inl ⟨rfl, rfl, rfl⟩,
      ⟨[], by simp, Or.inl rfl⟩, ?_⟩
    intro hnc hno
    rcases hsk with hc | ho
    · exact absurd hc hnc
    · exact absurd ho hno
  · push_neg at hsk
    by_cases hk : (st.gScore nbr).isSome = true ∧
        (st.gScore nbr).getD 0 ≤ (st.gScore cur).getD 0 + 1
    · rcases Option.isSome_iff_exists.mp hk.1 with ⟨m, hm⟩
      have hmle : m ≤ (st.gScore cur).getD 0 + 1 := by
        have := hk.2
        rw [hm] at this
        simpa using this
      by_cases hop : nbr ∈ st.openSet
      · rw [relaxNeighbor_keep_open target cur obstacles st nbr hsk.1 hsk.2 hop hk]
        refine ⟨rfl, fun p _ => ⟨rfl, rfl, rfl⟩, Or.inl ⟨rfl, rfl, rfl⟩,
          ⟨[], by simp, Or.inl rfl⟩, ?_⟩
        intro _ _
        exact ⟨hop, m, hm, hmle⟩
      · rw [relaxNeighbor_keep_push target cur obstacles st nbr hsk.1 hsk.2 hop hk]
        refine ⟨rfl, fun p _ => ⟨rfl, rfl, rfl⟩, Or.inl ⟨rfl, rfl, rfl⟩,
          ⟨[nbr], rfl, Or.inr ⟨rfl, hop, hsk.1, hsk.2⟩⟩, ?_⟩
        intro _ _
        exact ⟨by simp, m, hm, hmle⟩
    · have hrest : st.gScore nbr = none ∨ ∃ m, st.gScore nbr = some m ∧
          (st.gScore cur).getD 0 + 1 < m := by
        rw [Classical.not_and_iff_or_not_not] at hk
        rcases hg : st.gScore nbr with - | m
        · exact Or.inl rfl
        · refine Or.inr ⟨m, rfl, ?_⟩
          rcases hk with hk | hk
          · rw [hg] at hk; simp at hk
          · rw [hg] at hk; simp at hk; omega
      by_cases hop : nbr ∈ st.openSet
      · rw [relaxNeighbor_update_open target cur obstacles st nbr hsk.1 hsk.2 hop hk]
        refine ⟨rfl, ?_, ?_, ⟨[], by simp, Or.inl rfl⟩, ?_⟩
        · intro p hp
          simp [mapSet, hp]
        · exact Or.inr ⟨hsk.1, hsk.2, by simp [mapSet], by simp [mapSet],
            by simp [mapSet], hrest⟩
        · intro _ _
          exact ⟨hop, (st.gScore cur).getD 0 + 1, by simp [mapSet], le_refl _⟩
      · rw [relaxNeighbor_update_push target cur obstacles st nbr hsk.1 hsk.2 hop hk]
        refine ⟨rfl, ?_, ?_, ⟨[nbr], rfl, Or.inr ⟨rfl, hop, hsk.1, hsk.2⟩⟩, ?_⟩
        · intro p hp
          simp [mapSet, hp]
        · exact Or.inr ⟨hsk.1, hsk.2, by simp [mapSet], by simp [mapSet],
            by simp [mapSet], hrest⟩
        · intro _ _
          exact ⟨by simp, (st.gScore cur).getD 0 + 1, by simp [mapSet], le_refl _⟩

end Snake

namespace Snake

/-- Cumulative effect of relaxing a list of neighbours of `cur`. -/
theorem relaxList_spec (target cur : Pos) (obstacles : List Pos) :
    ∀ (nbrs : List Pos) (st : AStarState), (∀ x ∈ nbrs, x ≠ cur) →
      (nbrs.foldl (relaxNeighbor target cur obstacles) st).closedSet =
          st.closedSet ∧
      (nbrs.foldl (relaxNeighbor target cur obstacles) st).gScore cur =
          st.gScore cur ∧
      (∀ p, p ∉ nbrs →
        (nbrs.foldl (relaxNeighbor target cur obstacles) st).gScore p = st.gScore p ∧
        (nbrs.foldl (relaxNeighbor target cur obstacles) st).fScore p = st.fScore p ∧
        (nbrs.foldl (relaxNeighbor target cur obstacles) st).cameFrom p =
          st.cameFrom p) ∧
      (∀ p,
        ((nbrs.foldl (relaxNeighbor target cur obstacles) st).gScore p = st.gScore p ∧
         (nbrs.foldl (relaxNeighbor target cur obstacles) st).fScore p = st.fScore p ∧
         (nbrs.foldl (relaxNeighbor target cur obstacles) st).cameFrom p =
           st.cameFrom p) ∨
        (p ∈ nbrs ∧ p ∉ st.closedSet ∧ p ∉ obstacles ∧
          (nbrs.foldl (relaxNeighbor target cur obstacles) st).gScore p =
            some ((st.gScore cur).getD 0 + 1) ∧
          (nbrs.foldl (relaxNeighbor target cur obstacles) st).fScore p =
            some ((st.gScore cur).getD 0 + 1 + heuristic p target) ∧
          (nbrs.foldl (relaxNeighbor target cur obstacles) st).cameFrom p =
            some cur ∧
          (st.gScore p = none ∨ ∃ m, st.gScore p = some m ∧
            (st.gScore cur).getD 0 + 1 < m))) ∧
      (∃ ext, (nbrs.foldl (relaxNeighbor target cur obstacles) st).openSet =
          st.openSet ++ ext ∧
        ∀ x ∈ ext, x ∈ nbrs ∧ x ∉ st.closedSet ∧ x ∉ obstacles) ∧
      (st.openSet.Nodup →
        (nbrs.foldl (relaxNeighbor target cur obstacles) st).openSet.Nodup) ∧
      (∀ p ∈ nbrs, p ∉ st.closedSet → p ∉ obstacles →
        (p ∈ (nbrs.foldl (relaxNeighbor target cur obstacles) st).openSet ∧
          ∃ mp, (nbrs.foldl (relaxNeighbor target cur obstacles) st).gScore p =
            some mp ∧ mp ≤ (st.gScore cur).getD 0 + 1)) := by
  intro nbrs
  induction nbrs with
  | nil =>
    intro st _
    refine ⟨rfl, rfl, fun p _ => ⟨rfl, rfl, rfl⟩, fun p => Or.inl ⟨rfl, rfl, rfl⟩,
      ⟨[], by simp, by simp⟩, fun hnd => hnd, ?_⟩
    intro p hp
    simp at hp
  | cons n rest ih =>
    intro st hne
    have hnc : n ≠ cur := hne n (by simp)
    obtain ⟨c1, c2, c3, ⟨ext0, hext0, hext0c⟩, c5⟩ :=
      relaxNeighbor_cases target cur obstacles st n
    set st' := relaxNeighbor target cur obstacles st n with hst'
    have hne' : ∀ x ∈ rest, x ≠ cur := fun x hx => hne x (by simp [hx])
    obtain ⟨i1, i2, i3, i4, ⟨ext1, hext1, hext1c⟩, i6, i7⟩ := ih st' hne'
    have hcur : st'.gScore cur = st.gScore cur := (c2 cur (Ne.symm hnc)).1
    rw [List.foldl_cons]
    rw [← hst']
    refine ⟨?_, ?_, ?_, ?_, ?_, ?_, ?_⟩
    · rw [i1, c1]
    · rw [i2, hcur]
    · intro p hp
      have hpn : p ≠ n := by intro he; subst he; exact hp (by simp)
      have hpr : p ∉ rest := fun hr => hp (by simp [hr])
      obtain ⟨e1, e2, e3⟩ := i3 p hpr
      obtain ⟨d1, d2, d3⟩ := c2 p hpn
      exact ⟨by rw [e1, d1], by rw [e2, d2], by rw [e3, d3]⟩
    · intro p
      rcases i4 p with ⟨e1, e2, e3⟩ | ⟨hpr, hpcl, hpo, e1, e2, e3, e4⟩
      · by_cases hpn : p = n
        · subst hpn
          rcases c3 with ⟨d1, d2, d3⟩ | ⟨hncl, hno, d1, d2, d3, d4⟩
          · exact Or.inl ⟨by rw [e1, d1], by rw [e2, d2], by rw [e3, d3]⟩
          · refine Or.inr ⟨by simp, hncl, hno, ?_, ?_, ?_, d4⟩
            · rw [e1, d1]
            · rw [e2, d2]
            · rw [e3, d3]
        · obtain ⟨d1, d2, d3⟩ := c2 p hpn
          exact Or.inl ⟨by rw [e1, d1], by rw [e2, d2], by rw [e3, d3]⟩
      · rw [hcur] at e1 e2 e4
        rw [c1] at hpcl
        by_cases hpn : p = n
        · subst hpn
          rcases c3 with ⟨d1, d2, d3⟩ | ⟨hncl, hno, d1, d2, d3, d4⟩
          · rw [d1] at e4
            exact Or.inr ⟨by simp, hpcl, hpo, e1, e2, e3, e4⟩
          · rw [d1] at e4
            rcases e4 with e4 | ⟨m, hm, hlt⟩
            · simp at e4
            · simp at hm
              omega
        · have := (c2 p hpn).1
          rw [this] at e4
          exact Or.inr ⟨by simp [hpr], hpcl, hpo, e1, e2, e3, e4⟩
    · refine ⟨ext0 ++ ext1, ?_, ?_⟩
      · rw [hext1, hext0, List.append_assoc]
      · intro x hx
        rcases List.mem_append.mp hx with hx | hx
        · rcases hext0c with he | ⟨he, -, hcl, ho⟩
          · subst he; simp at hx
          · subst he
            simp at hx
            subst hx
            exact ⟨by simp, hcl, ho⟩
        · obtain ⟨h1, h2, h3⟩ := hext1c x hx
          rw [c1] at h2
          exact ⟨by simp [h1], h2, h3⟩
    · intro hnd
      refine i6 ?_
      rcases hext0c with he | ⟨he, hnop, -, -⟩
      · rw [hext0, he, List.append_nil]
        exact hnd
      · rw [hext0, he]
        rw [List.nodup_append]
        exact ⟨hnd, List.nodup_singleton n, by
          intro a ha hb
          simp at hb
          subst hb
          exact hnop ha⟩
    · intro p hp hpcl hpo
      rcases List.mem_cons.mp hp with rfl | hpr
      · obtain ⟨hmem, mn, hg, hle⟩ := c5 hpcl hpo
        constructor
        · rw [hext1]
          exact List.mem_append_left _ hmem
        · rcases i4 p with ⟨e1, -, -⟩ | ⟨-, -, -, e1, -, -, -⟩
          · exact ⟨mn, by rw [e1, hg], hle⟩
          · rw [hcur] at e1
            exact ⟨(st.gScore cur).getD 0 + 1, e1, le_refl _⟩
      · have hpcl' : p ∉ st'.closedSet := by rw [c1]; exact hpcl
        obtain ⟨hmem, mp', hg, hle⟩ := i7 p hpr hpcl' hpo
        rw [hcur] at hle
        exact ⟨hmem, mp', hg, hle⟩

end Snake

namespace Snake

/-- From a closed anchor on a shortest route one can always walk forward to
an open node on a shortest route (closed nodes are fully relaxed). -/
theorem open_witness_descend (w h : Nat) (obstacles : List Pos) (st : AStarState)
    (hrelaxed : ∀ p ∈ st.closedSet, ∀ q ∈ getNeighbors w h p, q ∉ obstacles →
      ∃ mq mp, st.gScore q = some mq ∧ st.gScore p = some mp ∧ mq ≤ mp + 1)
    (hdef : ∀ p : Pos, (st.gScore p).isSome = true →
      p ∈ st.openSet ∨ p ∈ st.closedSet)
    (hcvalid : ∀ p ∈ st.closedSet, isValidPosition w h p = true) :
    ∀ dcz : Nat, ∀ c z dz gc, c ∈ st.closedSet → st.gScore c = some gc →
      distIs w h obstacles c z dcz → gc + dcz ≤ dz → z ∉ st.closedSet →
      ∃ y ∈ st.openSet, ∃ gy dyz, st.gScore y = some gy ∧
        distIs w h obstacles y z dyz ∧ gy + dyz ≤ dz := by
  intro dcz
  induction dcz using Nat.strong_induction_on with
  | _ dcz ih =>
    intro c z dz gc hc hgc hdist hle hz
    have hne : z ≠ c := fun he => hz (he ▸ hc)
    have hpos : 1 ≤ dcz := distIs_pos hdist hne
    rcases distIs_step (hcvalid c hc) hdist hne with ⟨s, hsn, hso, ds, hds, hdsle⟩
    rcases hrelaxed c hc s hsn hso with ⟨ms, mc, hgs, hgc', hmsle⟩
    rw [hgc] at hgc'
    have hmc : mc = gc := by simp at hgc'; omega
    rcases hdef s (by simp [hgs]) with hsop | hscl
    · exact ⟨s, hsop, ms, ds, hgs, hds, by omega⟩
    · exact ih ds (by omega) s z dz ms hscl hgs hds (by omega) hz

end Snake

namespace Snake

/-- The popped minimum-fScore open node carries an exact distance: the
standard A* argument from the admissible, consistent Manhattan heuristic. -/
theorem popmin_exact (w h : Nat) (target : Pos) (obstacles : List Pos)
    (start : Pos) (st : AStarState)
    (inv : AStarInv w h target obstacles start st) (best : Pos)
    (hbm : best ∈ st.openSet)
    (hmin : ∀ y ∈ st.openSet, ∀ fy fb, st.fScore y = some fy →
      st.fScore best = some fb → fb ≤ fy) :
    ∃ db, st.gScore best = some db ∧ distIs w h obstacles start best db := by
  have hgb : (st.gScore best).isSome = true := (inv.g_def best).mpr (Or.inl hbm)
  rcases Option.isSome_iff_exists.mp hgb with ⟨gb, hgbv⟩
  have hreach := inv.g_sound best gb hgbv
  rcases distIs_exists hreach with ⟨db, hdb, hdble⟩
  rcases inv.opt best db hdb (inv.disj best hbm) with
    ⟨y, hy, gy, dyz, hgy, hdyz, hsum⟩
  have hyv : isValidPosition w h y = true := inv.open_sub y hy
  have hheur : heuristic y best ≤ dyz := by
    rcases reachN_validPath hyv dyz best hdyz.1 with ⟨p, hp, hlen⟩
    have := validPath_heuristic_lt_length p y best hp
    omega
  have hfy : st.fScore y = some (gy + heuristic y target) := by
    rw [inv.f_eq y, hgy]
    rfl
  have hfb : st.fScore best = some (gb + heuristic best target) := by
    rw [inv.f_eq best, hgbv]
    rfl
  have hmin' := hmin y hy _ _ hfy hfb
  have htri := heuristic_triangle y best target
  have hgble : gb ≤ db := by omega
  refine ⟨gb, hgbv, ?_⟩
  have : gb = db := by omega
  rw [this]
  exact hdb

end Snake

namespace Snake

/-- One full loop iteration — popping the exact-distance node `best` and
relaxing its neighbours — preserves the A* invariant. -/
theorem pop_relax_preserves (w h : Nat) (target : Pos) (obstacles : List Pos)
    (start : Pos) (st : AStarState)
    (inv : AStarInv w h target obstacles start st) (best : Pos) (idx : Nat)
    (hidx : idx < st.openSet.length)
    (hget : st.openSet.get ⟨idx, hidx⟩ = best)
    (db : Nat) (hbg : st.gScore best = some db)
    (hdb : distIs w h obstacles start best db)
    (hbt : best ≠ target) :
    AStarInv w h target obstacles start
      ((getNeighbors w h best).foldl (relaxNeighbor target best obstacles)
        { st with openSet := st.openSet.eraseIdx idx,
                  closedSet := best :: st.closedSet }) := by
  have hbm : best ∈ st.openSet := by
    rw [← hget]
    exact List.get_mem st.openSet idx hidx
  set st1 : AStarState :=
    { st with openSet := st.openSet.eraseIdx idx,
              closedSet := best :: st.closedSet } with hst1
  have hne : ∀ x ∈ getNeighbors w h best, x ≠ best := by
    intro x hx he
    subst he
    have := ((mem_getNeighbors w h x x).mp hx).1
    rw [(heuristic_eq_zero x x).mpr rfl] at this
    exact absurd this (by omega)
  obtain ⟨r1, r2, r3, r4, ⟨ext, hext, hextP⟩, r6, r7⟩ :=
    relaxList_spec target best obstacles (getNeighbors w h best) st1 hne
  set st2 := (getNeighbors w h best).foldl (relaxNeighbor target best obstacles) st1
    with hst2
  have hopen1 : ∀ p : Pos, p ∈ st1.openSet ↔ (p ∈ st.openSet ∧ p ≠ best) := by
    intro p
    have := mem_eraseIdx_nodup inv.open_nodup hidx p
    rw [hget] at this
    exact this
  have hclosed1 : st1.closedSet = best :: st.closedSet := rfl
  have hg1 : st1.gScore = st.gScore := rfl
  have hf1 : st1.fScore = st.fScore := rfl
  have hc1 : st1.cameFrom = st.cameFrom := rfl
  rw [hg1] at r2 r3 r4 r7
  rw [hf1] at r3 r4
  rw [hc1] at r3 r4
  rw [hbg] at r4 r7
  simp only [Option.getD_some] at r4 r7
  -- closed set of the new state
  have h2closed : st2.closedSet = best :: st.closedSet := by rw [r1, hclosed1]
  have h2gbest : st2.gScore best = some db := by rw [r2, hbg]
  -- helper: whereabouts of open2 members
  have hopen2 : ∀ p ∈ st2.openSet,
      (p ∈ st.openSet ∧ p ≠ best) ∨
        (p ∈ getNeighbors w h best ∧ p ∉ best :: st.closedSet ∧ p ∉ obstacles) := by
    intro p hp
    rw [hext] at hp
    rcases List.mem_append.mp hp with hp | hp
    · exact Or.inl ((hopen1 p).mp hp)
    · exact Or.inr (hextP p hp)
  -- the untouched/touched dichotomy in final terms
  have hr4 : ∀ p : Pos,
      (st2.gScore p = st.gScore p ∧ st2.fScore p = st.fScore p ∧
        st2.cameFrom p = st.cameFrom p) ∨
      (p ∈ getNeighbors w h best ∧ p ∉ best :: st.closedSet ∧ p ∉ obstacles ∧
        st2.gScore p = some (db + 1) ∧
        st2.fScore p = some (db + 1 + heuristic p target) ∧
        st2.cameFrom p = some best ∧
        (st.gScore p = none ∨ ∃ m, st.gScore p = some m ∧ db + 1 < m)) := r4
  have hvalid_nbr : ∀ p ∈ getNeighbors w h best, isValidPosition w h p = true :=
    fun p hp => ((mem_getNeighbors w h best p).mp hp).2
  -- fields
  have Fopen_nodup : st2.openSet.Nodup := by
    refine r6 ?_
    exact inv.open_nodup.sublist (List.eraseIdx_sublist _ _)
  have Fopen_sub : ∀ p ∈ st2.openSet, isValidPosition w h p = true := by
    intro p hp
    rcases hopen2 p hp with ⟨hp', -⟩ | ⟨hp', -, -⟩
    · exact inv.open_sub p hp'
    · exact hvalid_nbr p hp'
  have Fclosed_nodup : st2.closedSet.Nodup := by
    rw [h2closed]
    exact List.nodup_cons.mpr ⟨inv.disj best hbm, inv.closed_nodup⟩
  have Fclosed_sub : ∀ p ∈ st2.closedSet, isValidPosition w h p = true := by
    intro p hp
    rw [h2closed] at hp
    rcases List.mem_cons.mp hp with rfl | hp
    · exact inv.open_sub p hbm
    · exact inv.closed_sub p hp
  have Fdisj : ∀ p ∈ st2.openSet, p ∉ st2.closedSet := by
    intro p hp
    rw [h2closed]
    rcases hopen2 p hp with ⟨hp', hpb⟩ | ⟨-, hp', -⟩
    · intro hc
      rcases List.mem_cons.mp hc with rfl | hc
      · exact hpb rfl
      · exact inv.disj p hp' hc
    · exact hp'
  have Fg_def : ∀ p : Pos, (st2.gScore p).isSome = true ↔
      (p ∈ st2.openSet ∨ p ∈ st2.closedSet) := by
    intro p
    constructor
    · intro hdef
      rcases hr4 p with ⟨e1, -, -⟩ | ⟨hn, hncl, hno, e1, -, -, -⟩
      · rw [e1] at hdef
        rcases (inv.g_def p).mp hdef with hp | hp
        · by_cases hpb : p = best
          · subst hpb
            exact Or.inr (by rw [h2closed]; simp)
          · refine Or.inl ?_
            rw [hext]
            exact List.mem_append_left _ ((hopen1 p).mpr ⟨hp, hpb⟩)
        · exact Or.inr (by rw [h2closed]; exact List.mem_cons_of_mem _ hp)
      · exact Or.inl (r7 p hn hncl hno).1
    · intro hp
      rcases hp with hp | hp
      · rcases hopen2 p hp with ⟨hp', -⟩ | ⟨hn, hncl, hno⟩
        · have hdef : (st.gScore p).isSome = true := (inv.g_def p).mpr (Or.inl hp')
          rcases hr4 p with ⟨e1, -, -⟩ | ⟨-, -, -, e1, -, -, -⟩
          · rw [e1]; exact hdef
          · rw [e1]; rfl
        · rcases r7 p hn hncl hno with ⟨-, mp, e, -⟩
          rw [e]; rfl
      · rw [h2closed] at hp
        rcases List.mem_cons.mp hp with rfl | hp
        · rw [h2gbest]; rfl
        · have hdef : (st.gScore p).isSome = true := (inv.g_def p).mpr (Or.inr hp)
          rcases hr4 p with ⟨e1, -, -⟩ | ⟨-, -, -, e1, -, -, -⟩
          · rw [e1]; exact hdef
          · rw [e1]; rfl
  have Ff_eq : ∀ p : Pos, st2.fScore p =
      (st2.gScore p).map (fun g => g + heuristic p target) := by
    intro p
    rcases hr4 p with ⟨e1, e2, -⟩ | ⟨-, -, -, e1, e2, -, -⟩
    · rw [e1, e2]; exact inv.f_eq p
    · rw [e1, e2]; rfl
  have Fg_start : st2.gScore start = some 0 := by
    rcases hr4 start with ⟨e1, -, -⟩ | ⟨-, -, -, -, -, -, hcontra⟩
    · rw [e1]; exact inv.g_start
    · rcases hcontra with hc | ⟨m, hm, hlt⟩
      · rw [inv.g_start] at hc; simp at hc
      · rw [inv.g_start] at hm
        simp at hm
        omega
  have Fcame_start : st2.cameFrom start = none := by
    rcases hr4 start with ⟨-, -, e3⟩ | ⟨-, -, -, -, -, -, hcontra⟩
    · rw [e3]; exact inv.came_start
    · rcases hcontra with hc | ⟨m, hm, hlt⟩
      · rw [inv.g_start] at hc; simp at hc
      · rw [inv.g_start] at hm
        simp at hm
        omega
  have Fg_sound : ∀ p m, st2.gScore p = some m →
      p ∈ reachN w h obstacles start m := by
    intro p m hm
    rcases hr4 p with ⟨e1, -, -⟩ | ⟨hn, -, hno, e1, -, -, -⟩
    · rw [e1] at hm; exact inv.g_sound p m hm
    · rw [e1] at hm
      have hm' : m = db + 1 := by simp at hm; omega
      subst hm'
      rw [reachN_succ, mem_reachStep]
      exact Or.inr ⟨best, hdb.1, hn, hno⟩
  have Fnot_obs : ∀ p, (st2.gScore p).isSome = true →
      p = start ∨ p ∉ obstacles := by
    intro p hp
    rcases hr4 p with ⟨e1, -, -⟩ | ⟨-, -, hno, -, -, -, -⟩
    · rw [e1] at hp; exact inv.not_obs p hp
    · exact Or.inr hno
  have Fcame_def : ∀ p, (st2.gScore p).isSome = true → p ≠ start →
      (st2.cameFrom p).isSome = true := by
    intro p hp hps
    rcases hr4 p with ⟨e1, -, e3⟩ | ⟨-, -, -, -, -, e3, -⟩
    · rw [e1] at hp
      rw [e3]
      exact inv.came_def p hp hps
    · rw [e3]; rfl
  have Fcame_g : ∀ p q, st2.cameFrom p = some q →
      ∃ mp mq, st2.gScore p = some mp ∧ st2.gScore q = some mq ∧ mq + 1 ≤ mp := by
    intro p q hpq
    rcases hr4 p with ⟨e1, -, e3⟩ | ⟨-, -, -, e1, -, e3, -⟩
    · rw [e3] at hpq
      rcases inv.came_g p q hpq with ⟨mp, mq, hmp, hmq, hle⟩
      refine ⟨mp, ?_⟩
      rw [e1]
      rcases hr4 q with ⟨d1, -, -⟩ | ⟨-, -, -, d1, -, -, hrest⟩
      · exact ⟨mq, hmp, by rw [d1]; exact hmq, hle⟩
      · rcases hrest with hc | ⟨m', hm', hlt⟩
        · rw [hmq] at hc; simp at hc
        · rw [hmq] at hm'
          have : m' = mq := by simp at hm'; omega
          subst this
          exact ⟨db + 1, hmp, d1, by omega⟩
    · rw [e3] at hpq
      have hq : q = best := by simp at hpq; exact hpq.symm
      subst hq
      exact ⟨db + 1, db, e1, h2gbest, le_refl _⟩
  have Fcame_adj : ∀ p q, st2.cameFrom p = some q →
      heuristic q p = 1 ∧ p ∉ obstacles ∧ isValidPosition w h p = true := by
    intro p q hpq
    rcases hr4 p with ⟨-, -, e3⟩ | ⟨hn, -, hno, -, -, e3, -⟩
    · rw [e3] at hpq
      exact inv.came_adj p q hpq
    · rw [e3] at hpq
      have hq : q = best := by simp at hpq; exact hpq.symm
      subst hq
      exact ⟨((mem_getNeighbors w h q p).mp hn).1, hno, hvalid_nbr p hn⟩
  have Fclosed_exact : ∀ p ∈ st2.closedSet,
      ∃ dp, distIs w h obstacles start p dp ∧ st2.gScore p = some dp := by
    intro p hp
    rw [h2closed] at hp
    rcases List.mem_cons.mp hp with rfl | hp
    · exact ⟨db, hdb, h2gbest⟩
    · rcases inv.closed_exact p hp with ⟨dp, hdp, hgp⟩
      refine ⟨dp, hdp, ?_⟩
      rcases hr4 p with ⟨e1, -, -⟩ | ⟨-, hcl, -, -, -, -, -⟩
      · rw [e1]; exact hgp
      · exact absurd (List.mem_cons_of_mem _ hp) hcl
  have Fclosed_relaxed : ∀ p ∈ st2.closedSet, ∀ q ∈ getNeighbors w h p,
      q ∉ obstacles → ∃ mq mp, st2.gScore q = some mq ∧ st2.gScore p = some mp ∧
        mq ≤ mp + 1 := by
    intro p hp q hq hqo
    rw [h2closed] at hp
    rcases List.mem_cons.mp hp with rfl | hp
    · by_cases hqcl : q ∈ p :: st.closedSet
      · rcases List.mem_cons.mp hqcl with heq2 | hqcl'
        · exact absurd heq2 (hne q hq)
        · rcases inv.closed_exact q hqcl' with ⟨dq, hdq, hgq⟩
          have hdqle : dq ≤ db + 1 := by
            rcases distIs_snoc inv.start_valid hdb hq hqo with ⟨ds, hds, hdsle⟩
            have := distIs_unique hdq hds
            omega
          refine ⟨dq, db, ?_, h2gbest, by omega⟩
          rcases hr4 q with ⟨e1, -, -⟩ | ⟨-, hcl, -, -, -, -, -⟩
          · rw [e1]; exact hgq
          · exact absurd hqcl hcl
      · rcases r7 q hq hqcl hqo with ⟨-, mq, hgq, hmqle⟩
        exact ⟨mq, db, hgq, h2gbest, by omega⟩
    · rcases inv.closed_relaxed p hp q hq hqo with ⟨mq, mp, hgq, hgp, hle⟩
      have hgp2 : st2.gScore p = some mp := by
        rcases hr4 p with ⟨e1, -, -⟩ | ⟨-, hcl, -, -, -, -, -⟩
        · rw [e1]; exact hgp
        · exact absurd (List.mem_cons_of_mem _ hp) hcl
      rcases hr4 q with ⟨e1, -, -⟩ | ⟨-, -, -, e1, -, -, hrest⟩
      · exact ⟨mq, mp, by rw [e1]; exact hgq, hgp2, hle⟩
      · rcases hrest with hc | ⟨m', hm', hlt⟩
        · rw [hgq] at hc; simp at hc
        · rw [hgq] at hm'
          have : m' = mq := by simp at hm'; omega
          subst this
          exact ⟨db + 1, mp, e1, hgp2, by omega⟩
  have Ftarget : target ∉ st2.closedSet := by
    rw [h2closed]
    intro hc
    rcases List.mem_cons.mp hc with rfl | hc
    · exact hbt rfl
    · exact inv.target_not_closed hc
  have Fopt : ∀ z dz, distIs w h obstacles start z dz → z ∉ st2.closedSet →
      ∃ y ∈ st2.openSet, ∃ gy dyz, st2.gScore y = some gy ∧
        distIs w h obstacles y z dyz ∧ gy + dyz ≤ dz := by
    intro z dz hdz hzcl
    have hzcl' : z ∉ st.closedSet := by
      rw [h2closed] at hzcl
      exact fun hc => hzcl (List.mem_cons_of_mem _ hc)
    rcases inv.opt z dz hdz hzcl' with ⟨y, hy, gy, dyz, hgy, hdyz, hsum⟩
    by_cases hyb : y = best
    · subst hyb
      have hgyv : gy = db := by rw [hbg] at hgy; simp at hgy; omega
      subst hgyv
      exact open_witness_descend w h obstacles st2 Fclosed_relaxed
        (fun p hp => (Fg_def p).mp hp) Fclosed_sub dyz y z dz gy
        (by rw [h2closed]; simp) h2gbest hdyz hsum hzcl
    · have hymem : y ∈ st2.openSet := by
        rw [hext]
        exact List.mem_append_left _ ((hopen1 y).mpr ⟨hy, hyb⟩)
      rcases hr4 y with ⟨e1, -, -⟩ | ⟨-, -, -, e1, -, -, hrest⟩
      · exact ⟨y, hymem, gy, dyz, by rw [e1]; exact hgy, hdyz, hsum⟩
      · rcases hrest with hc | ⟨m', hm', hlt⟩
        · rw [hgy] at hc; simp at hc
        · rw [hgy] at hm'
          have : m' = gy := by simp at hm'; omega
          subst this
          exact ⟨y, hymem, db + 1, dyz, e1, hdyz, by omega⟩
  exact ⟨inv.start_valid, Fopen_nodup, Fopen_sub, Fclosed_nodup, Fclosed_sub,
    Fdisj, Fg_def, Ff_eq, Fg_start, Fcame_start, Fg_sound, Fnot_obs, Fcame_def,
    Fcame_g, Fcame_adj, Fclosed_exact, Fclosed_relaxed, Ftarget, Fopt⟩

end Snake

namespace Snake

theorem aStarLoop_zero (w h : Nat) (target : Pos) (obstacles : List Pos)
    (st : AStarState) : aStarLoop w h target obstacles 0 st = none := rfl

theorem aStarLoop_empty (w h : Nat) (target : Pos) (obstacles : List Pos)
    (fuel : Nat) (st : AStarState) (hopen : st.openSet = []) :
    aStarLoop w h target obstacles (fuel + 1) st = none := by
  rw [aStarLoop, hopen]

theorem aStarLoop_succ_eq (w h : Nat) (target : Pos) (obstacles : List Pos)
    (fuel : Nat) (st : AStarState) (c : Pos) (rest : List Pos)
    (hopen : st.openSet = c :: rest) :
    aStarLoop w h target obstacles (fuel + 1) st =
      (if (findMinFrom st.fScore c 0 1 rest).1 = target then
        some (reconstructPath (w * h) st.cameFrom
          (findMinFrom st.fScore c 0 1 rest).1 [])
      else
        aStarLoop w h target obstacles fuel
          ((getNeighbors w h (findMinFrom st.fScore c 0 1 rest).1).foldl
            (relaxNeighbor target (findMinFrom st.fScore c 0 1 rest).1 obstacles)
            { st with
                openSet := st.openSet.eraseIdx (findMinFrom st.fScore c 0 1 rest).2,
                closedSet := (findMinFrom st.fScore c 0 1 rest).1 :: st.closedSet })) := by
  conv_lhs => rw [aStarLoop]
  rw [hopen]

end Snake

namespace Snake

/-- The linear scan really pops a member of the open set, at its index, and
that node's gScore is its exact grid distance. -/
theorem popStep_exact (w h : Nat) (target : Pos) (obstacles : List Pos)
    (start : Pos) (st : AStarState)
    (inv : AStarInv w h target obstacles start st) (c : Pos) (rest : List Pos)
    (hopen : st.openSet = c :: rest) :
    ∃ hidx : (findMinFrom st.fScore c 0 1 rest).2 < st.openSet.length,
      st.openSet.get ⟨(findMinFrom st.fScore c 0 1 rest).2, hidx⟩ =
        (findMinFrom st.fScore c 0 1 rest).1 ∧
      ∃ db, st.gScore (findMinFrom st.fScore c 0 1 rest).1 = some db ∧
        distIs w h obstacles start (findMinFrom st.fScore c 0 1 rest).1 db := by
  have hmem : ∀ y : Pos, (y = c ∨ y ∈ rest) ↔ y ∈ st.openSet := by
    intro y
    rw [hopen]
    simp
  have hget : ∃ hidx : (findMinFrom st.fScore c 0 1 rest).2 < st.openSet.length,
      st.openSet.get ⟨(findMinFrom st.fScore c 0 1 rest).2, hidx⟩ =
        (findMinFrom st.fScore c 0 1 rest).1 := by
    rcases findMinFrom_pos st.fScore rest c 0 1 with heq | ⟨k, hk, heq⟩
    · rw [heq, hopen]
      exact ⟨by simp, rfl⟩
    · rw [heq, hopen]
      have h1k : 1 + k = k + 1 := by omega
      simp only [h1k]
      refine ⟨by simp; omega, ?_⟩
      exact List.get_cons_succ
  rcases hget with ⟨hidx, hgeteq⟩
  refine ⟨hidx, hgeteq, ?_⟩
  have hbm : (findMinFrom st.fScore c 0 1 rest).1 ∈ st.openSet := by
    rw [← hgeteq]
    exact List.get_mem st.openSet _ hidx
  have hdef : ∀ y : Pos, (y = c ∨ y ∈ rest) → (st.fScore y).isSome = true := by
    intro y hy
    rcases Option.isSome_iff_exists.mp
      ((inv.g_def y).mpr (Or.inl ((hmem y).mp hy))) with ⟨g, hg⟩
    rw [inv.f_eq y, hg]
    rfl
  rcases findMinFrom_min st.fScore rest c 0 1 hdef with ⟨fr, hfr, hminr⟩
  exact popmin_exact w h target obstacles start st inv _ hbm
    (by
      intro y hy fy fb hfy hfb
      rw [hfr] at hfb
      have : fb = fr := by simp at hfb; omega
      subst this
      exact hminr y ((hmem y).mpr hy) fy hfy)

end Snake

namespace Snake

theorem nodup_valid_length_le (w h : Nat) (l : List Pos) (hnd : l.Nodup)
    (hsub : ∀ p ∈ l, isValidPosition w h p = true) : l.length ≤ w * h := by
  have h1 : l.toFinset.card = l.length := List.toFinset_card_of_nodup hnd
  have h2 : l.toFinset ⊆ boardCells w h := by
    intro p hp
    rw [List.mem_toFinset] at hp
    exact (mem_boardCells w h p).mpr (hsub p hp)
  calc l.length = l.toFinset.card := h1.symm
    _ ≤ (boardCells w h).card := Finset.card_le_card h2
    _ ≤ w * h := boardCells_card w h

theorem getNeighbors_ne_self (w h : Nat) (cur : Pos) :
    ∀ x ∈ getNeighbors w h cur, x ≠ cur := by
  intro x hx he
  subst he
  have := ((mem_getNeighbors w h x x).mp hx).1
  rw [(heuristic_eq_zero x x).mpr rfl] at this
  exact absurd this (by omega)

/-- When start and target are not connected, the search loop exhausts
without returning a path, for every fuel value. -/
theorem aStarLoop_none_of_disconnected (w h : Nat) (target : Pos)
    (obstacles : List Pos) (start : Pos) :
    ∀ (fuel : Nat) (st : AStarState), AStarInv w h target obstacles start st →
      ¬ Connects w h obstacles start target →
      aStarLoop w h target obstacles fuel st = none := by
  intro fuel
  induction fuel with
  | zero => intro st _ _; exact aStarLoop_zero w h target obstacles st
  | succ f ih =>
    intro st inv hnc
    rcases hopen : st.openSet with - | ⟨c, rest⟩
    · exact aStarLoop_empty w h target obstacles f st hopen
    · rcases popStep_exact w h target obstacles start st inv c rest hopen with
        ⟨hidx, hgeteq, db, hbg, hdb⟩
      rw [aStarLoop_succ_eq w h target obstacles f st c rest hopen]
      have hbt : (findMinFrom st.fScore c 0 1 rest).1 ≠ target := by
        intro he
        apply hnc
        rw [connects_iff_distIs inv.start_valid]
        exact ⟨db, he ▸ hdb⟩
      rw [if_neg hbt]
      exact ih _ (pop_relax_preserves w h target obstacles start st inv _ _
        hidx hgeteq db hbg hdb hbt) hnc

/-- When the target lies at grid distance `dt` from the start, the loop —
given enough fuel — returns a valid path of exactly `dt + 1` cells. -/
theorem aStarLoop_some_of_connected (w h : Nat) (target : Pos)
    (obstacles : List Pos) (start : Pos) (dt : Nat)
    (hdt : distIs w h obstacles start target dt) :
    ∀ (fuel : Nat) (st : AStarState), AStarInv w h target obstacles start st →
      w * h < fuel + st.closedSet.length →
      ∃ p, aStarLoop w h target obstacles fuel st = some p ∧
        ValidPath w h obstacles start target p ∧ p.length = dt + 1 := by
  intro fuel
  induction fuel with
  | zero =>
    intro st inv hm
    exfalso
    have := nodup_valid_length_le w h st.closedSet inv.closed_nodup inv.closed_sub
    omega
  | succ f ih =>
    intro st inv hm
    rcases hopen : st.openSet with - | ⟨c, rest⟩
    · exfalso
      rcases inv.opt target dt hdt inv.target_not_closed with ⟨y, hy, -⟩
      rw [hopen] at hy
      simp at hy
    · rcases popStep_exact w h target obstacles start st inv c rest hopen with
        ⟨hidx, hgeteq, db, hbg, hdb⟩
      rw [aStarLoop_succ_eq w h target obstacles f st c rest hopen]
      by_cases hbt : (findMinFrom st.fScore c 0 1 rest).1 = target
      · rw [if_pos hbt]
        rw [hbt] at hbg hdb
        have hdbdt : db = dt := distIs_unique hdb hdt
        subst hdbdt
        have hterm : ∀ v, (st.gScore v).isSome = true → st.cameFrom v = none →
            v = start := by
          intro v hgv hcv
          by_contra hvne
          have := inv.came_def v hgv hvne
          rw [hcv] at this
          simp at this
        have hfuel : db ≤ w * h := by
          have hsub := @reachN_subset_square w h obstacles start
            inv.start_valid db
          exact hdb.2 (w * h) (hsub hdb.1)
        rcases reconstructPath_spec w h obstacles start st.cameFrom st.gScore
          inv.start_valid hterm inv.came_g inv.came_adj db target hbg (w * h)
          hfuel [] with ⟨pfx, hpeq, hvp, hlen⟩
        refine ⟨pfx, ?_, hvp, ?_⟩
        · rw [hbt, hpeq]
          simp
        · have hge := validPath_mem_reachN pfx start _ hvp
          have hge2 := hdb.2 _ hge
          have hnn : pfx ≠ [] := validPath_ne_nil hvp
          have : 1 ≤ pfx.length := List.length_pos.mpr hnn
          omega
      · rw [if_neg hbt]
        have inv2 := pop_relax_preserves w h target obstacles start st inv _ _
          hidx hgeteq db hbg hdb hbt
        obtain ⟨r1, -⟩ := relaxList_spec target (findMinFrom st.fScore c 0 1 rest).1
          obstacles (getNeighbors w h (findMinFrom st.fScore c 0 1 rest).1)
          { st with openSet := st.openSet.eraseIdx (findMinFrom st.fScore c 0 1 rest).2,
                    closedSet := (findMinFrom st.fScore c 0 1 rest).1 :: st.closedSet }
          (getNeighbors_ne_self w h (findMinFrom st.fScore c 0 1 rest).1)
        apply ih _ inv2
        rw [r1]
        simp only [List.length_cons]
        omega

end Snake

namespace Snake

/-- The initial search state satisfies the A* invariant. -/
theorem initState_inv (w h : Nat) (target : Pos) (obstacles : List Pos)
    (start : Pos) (hsv : isValidPosition w h start = true) :
    AStarInv w h target obstacles start (initState start target) := by
  have hg : ∀ p : Pos, (initState start target).gScore p =
      if p = start then some 0 else none := by
    intro p
    rfl
  refine ⟨hsv, by simp [initState], ?_, by simp [initState], by simp [initState],
    by simp [initState], ?_, ?_, ?_, rfl, ?_, ?_, ?_, ?_, ?_,
    by simp [initState], ?_, by simp [initState], ?_⟩
  · intro p hp
    simp [initState] at hp
    subst hp
    exact hsv
  · intro p
    rw [hg p]
    constructor
    · intro hdef
      by_cases hp : p = start
      · subst hp; simp [initState]
      · rw [if_neg hp] at hdef; simp at hdef
    · intro hp
      simp [initState] at hp
      subst hp
      simp
  · intro p
    rw [hg p]
    by_cases hp : p = start
    · subst hp
      simp [initState, mapSet]
    · rw [if_neg hp]
      simp [initState, mapSet, hp]
  · rw [hg start]
    simp
  · intro p m hpm
    rw [hg p] at hpm
    by_cases hp : p = start
    · subst hp
      simp at hpm
      subst hpm
      exact src_mem_reachN w h obstacles p 0
    · rw [if_neg hp] at hpm; simp at hpm
  · intro p hdef
    rw [hg p] at hdef
    by_cases hp : p = start
    · exact Or.inl hp
    · rw [if_neg hp] at hdef; simp at hdef
  · intro p hdef hps
    rw [hg p] at hdef
    rw [if_neg hps] at hdef
    simp at hdef
  · intro p q hpq
    simp [initState] at hpq
  · intro p q hpq
    simp [initState] at hpq
  · intro p hp
    simp [initState] at hp
  · intro z dz hdz _hz
    refine ⟨start, by simp [initState], 0, dz, ?_, hdz, by omega⟩
    rw [hg start]
    simp

/-- PathfindingEngine.findPath is complete and optimal once its explicit
precondition — an unblocked target — holds: on connected inputs it returns a
valid path of minimal length. -/
theorem findPath_some_of_connected (w h : Nat) (start target : Pos)
    (obstacles : List Pos) (dt : Nat)
    (hsv : isValidPosition w h start = true)
    (htv : isValidPosition w h target = true)
    (hto : target ∉ obstacles)
    (hdt : distIs w h obstacles start target dt) :
    ∃ p, findPath w h start target obstacles = some p ∧
      ValidPath w h obstacles start target p ∧ p.length = dt + 1 := by
  unfold findPath
  rw [hsv, htv]
  simp only [Bool.not_true, Bool.or_self, Bool.false_eq_true, if_false]
  rw [if_neg (by simpa using hto)]
  exact aStarLoop_some_of_connected w h target obstacles start dt hdt
    (w * h + 1) (initState start target)
    (initState_inv w h target obstacles start hsv)
    (by simp [initState])

/-- findPath returns none on every disconnected, blocked-target or
out-of-bounds input. -/
theorem findPath_none_cases (w h : Nat) (start target : Pos)
    (obstacles : List Pos)
    (hbad : isValidPosition w h start = false ∨
      isValidPosition w h target = false ∨ target ∈ obstacles ∨
      ¬ Connects w h obstacles start target) :
    findPath w h start target obstacles = none := by
  unfold findPath
  by_cases hsv : isValidPosition w h start = true
  · by_cases htv : isValidPosition w h target = true
    · rw [hsv, htv]
      simp only [Bool.not_true, Bool.or_self, Bool.false_eq_true, if_false]
      by_cases hto : target ∈ obstacles
      · rw [if_pos (by simpa using hto)]
      · rw [if_neg (by simpa using hto)]
        rcases hbad with hb | hb | hb | hnc
        · rw [hsv] at hb; simp at hb
        · rw [htv] at hb; simp at hb
        · exact absurd hb hto
        · exact aStarLoop_none_of_disconnected w h target obstacles start
            (w * h + 1) (initState start target)
            (initState_inv w h target obstacles start hsv) hnc
    · rw [Bool.not_eq_true] at htv
      rw [htv]
      simp
  · rw [Bool.not_eq_true] at hsv
    rw [hsv]
    simp

end Snake

namespace Snake

/-- Claim C1 (amended): for in-bounds endpoints connected by unobstructed
unit orthogonal moves whose goal cell is not itself an obstacle, `findPath`
returns a shortest connecting path; on an obstacle-free board its length is
the Manhattan distance plus one. -/
theorem findPath_shortest (w h : Nat) (start target : Pos) (obstacles : List Pos)
    (hsv : isValidPosition w h start = true)
    (htv : isValidPosition w h target = true)
    (hto : target ∉ obstacles)
    (hconn : Connects w h obstacles start target) :
    ∃ p, findPath w h start target obstacles = some p ∧
      ValidPath w h obstacles start target p ∧
      (∀ q, ValidPath w h obstacles start target q → p.length ≤ q.length) ∧
      (obstacles = [] → p.length = heuristic start target + 1) := by
  rcases (connects_iff_distIs hsv).mp hconn with ⟨dt, hdt⟩
  rcases findPath_some_of_connected w h start target obstacles dt hsv htv hto hdt
    with ⟨p, hp, hvp, hlen⟩
  refine ⟨p, hp, hvp, ?_, ?_⟩
  · intro q hq
    have hq1 := validPath_mem_reachN q start target hq
    have hq2 := hdt.2 _ hq1
    have hqnn : q ≠ [] := validPath_ne_nil hq
    have : 1 ≤ q.length := List.length_pos.mpr hqnn
    omega
  · intro hobs
    subst hobs
    obtain ⟨hsp, hslen⟩ := staircase_spec w h start target hsv htv
    have h1 := validPath_mem_reachN _ start target hsp
    have h2 := hdt.2 _ h1
    rw [hslen] at h2
    have h3 := validPath_heuristic_lt_length p start target hvp
    omega

/-- Counterexample for C1 as stated: on a 2 by 2 board with the single
obstacle (0,0), start = goal = (0,0) is in-bounds and connected to itself by
the one-cell path (no cell after index 0 is obstructed), yet `findPath`
rejects the blocked goal and returns none instead of that shortest path. -/
theorem findPath_shortest_counterexample :
    isValidPosition 2 2 (Pos.mk 0 0) = true ∧
    Connects 2 2 [Pos.mk 0 0] (Pos.mk 0 0) (Pos.mk 0 0) ∧
    findPath 2 2 (Pos.mk 0 0) (Pos.mk 0 0) [Pos.mk 0 0] = none :=
  ⟨by decide, ⟨[Pos.mk 0 0], by decide⟩, by decide⟩

/-- Witness for C1 (amended): the obstacle-free 10 by 10 board from (0,0)
to (9,9) yields a returned path of exactly 19 cells. -/
theorem findPath_shortest_witness :
    ∃ p, findPath 10 10 (Pos.mk 0 0) (Pos.mk 9 9) [] = some p ∧
      p.length = 19 := by
  rcases findPath_shortest 10 10 (Pos.mk 0 0) (Pos.mk 9 9) [] (by decide)
    (by decide) (by decide)
    ⟨[Pos.mk 0 0, Pos.mk 1 0, Pos.mk 2 0,
      Pos.mk 3 0, Pos.mk 4 0, Pos.mk 5 0,
      Pos.mk 6 0, Pos.mk 7 0, Pos.mk 8 0,
      Pos.mk 9 0, Pos.mk 9 1, Pos.mk 9 2,
      Pos.mk 9 3, Pos.mk 9 4, Pos.mk 9 5,
      Pos.mk 9 6, Pos.mk 9 7, Pos.mk 9 8,
      Pos.mk 9 9], by decide⟩ with ⟨p, hp, -, -, hfree⟩
  refine ⟨p, hp, ?_⟩
  rw [hfree rfl]
  decide

/-- Claim C2: every path returned by `findPath` begins at `start`, ends at
the goal, moves exactly one unit on exactly one axis per step, stays in
bounds, and contains no obstacle cell after index 0. -/
theorem findPath_valid (w h : Nat) (start target : Pos) (obstacles : List Pos)
    (p : List Pos) (hp : findPath w h start target obstacles = some p) :
    p.head? = some start ∧ p.getLast? = some target ∧ List.Chain' adjStep p ∧
      (∀ q ∈ p, isValidPosition w h q = true) ∧ ∀ q ∈ p.tail, q ∉ obstacles := by
  have hsv : isValidPosition w h start = true := by
    cases hc : isValidPosition w h start
    · rw [findPath_none_cases w h start target obstacles (Or.inl hc)] at hp
      simp at hp
    · rfl
  have htv : isValidPosition w h target = true := by
    cases hc : isValidPosition w h target
    · rw [findPath_none_cases w h start target obstacles (Or.inr (Or.inl hc))] at hp
      simp at hp
    · rfl
  have hto : target ∉ obstacles := by
    intro hb
    rw [findPath_none_cases w h start target obstacles
      (Or.inr (Or.inr (Or.inl hb)))] at hp
    simp at hp
  have hconn : Connects w h obstacles start target := by
    by_contra hb
    rw [findPath_none_cases w h start target obstacles
      (Or.inr (Or.inr (Or.inr hb)))] at hp
    simp at hp
  rcases (connects_iff_distIs hsv).mp hconn with ⟨dt, hdt⟩
  rcases findPath_some_of_connected w h start target obstacles dt hsv htv hto hdt
    with ⟨q, hq, hvq, -⟩
  rw [hp] at hq
  have hqp : q = p := Option.some.inj hq.symm
  subst hqp
  exact hvq

/-- Witness for C2 at a concrete detour instance: a 3 by 3 board with the
obstacle (1,0) forces the five-cell path around it. -/
theorem findPath_valid_witness :
    [Pos.mk 0 0, Pos.mk 0 1, Pos.mk 0 2, Pos.mk 1 2, Pos.mk 2 2].head? =
        some (Pos.mk 0 0) ∧
      [Pos.mk 0 0, Pos.mk 0 1, Pos.mk 0 2, Pos.mk 1 2, Pos.mk 2 2].getLast? =
        some (Pos.mk 2 2) ∧
      List.Chain' adjStep
        [Pos.mk 0 0, Pos.mk 0 1, Pos.mk 0 2, Pos.mk 1 2, Pos.mk 2 2] ∧
      (∀ q ∈ [Pos.mk 0 0, Pos.mk 0 1, Pos.mk 0 2, Pos.mk 1 2, Pos.mk 2 2],
        isValidPosition 3 3 q = true) ∧
      ∀ q ∈ [Pos.mk 0 0, Pos.mk 0 1, Pos.mk 0 2, Pos.mk 1 2, Pos.mk 2 2].tail,
        q ∉ [Pos.mk 1 0] :=
  findPath_valid 3 3 (Pos.mk 0 0) (Pos.mk 2 2) [Pos.mk 1 0]
    [Pos.mk 0 0, Pos.mk 0 1, Pos.mk 0 2, Pos.mk 1 2, Pos.mk 2 2] (by decide)

/-- Claim C3: `findPath` returns none exactly when an endpoint is out of
bounds, the goal cell is an obstacle, or no sequence of unobstructed unit
orthogonal moves connects start to goal. -/
theorem findPath_none_iff (w h : Nat) (start target : Pos)
    (obstacles : List Pos) :
    findPath w h start target obstacles = none ↔
      (isValidPosition w h start = false ∨ isValidPosition w h target = false ∨
        target ∈ obstacles ∨ ¬ Connects w h obstacles start target) := by
  constructor
  · intro hn
    by_contra hb
    push_neg at hb
    obtain ⟨h1, h2, h3, h4⟩ := hb
    have h1t : isValidPosition w h start = true := by
      cases hc : isValidPosition w h start
      · exact absurd hc h1
      · rfl
    have h2t : isValidPosition w h target = true := by
      cases hc : isValidPosition w h target
      · exact absurd hc h2
      · rfl
    rcases (connects_iff_distIs h1t).mp h4 with ⟨dt, hdt⟩
    rcases findPath_some_of_connected w h start target obstacles dt h1t h2t h3
      hdt with ⟨p, hp, -, -⟩
    rw [hn] at hp
    simp at hp
  · exact findPath_none_cases w h start target obstacles

end Snake
